import Mathlib

set_option maxHeartbeats 1000000

/-!
Verification development for the smart-modules repository.

The development shallowly embeds the bounded byte-stream core
(`modules/stream/lib/stream.js`, class `SmartStream`), its inactivity-timer
collaborator (`modules/timer/lib/timer.js`, class `SmartTimer`) and the
serializer utilities (`modules/stream/lib/util.js`).  JavaScript numbers that
feed the bounding logic are modelled by `JSNum` (integers, the infinities and
NaN); absent (`undefined`) object properties are modelled by `Option`.
Chunks are modelled by their byte lengths, and buffers by lists of bytes.
-/

namespace SmartModules

/-- JavaScript-style numeric values as used by the bounding logic: integer
numbers, the two infinities and NaN.  (The source never feeds non-integer
finite numbers into the bounding logic of the claims considered here.) -/
inductive JSNum where
  | num (v : Int)
  | inf
  | ninf
  | nan
deriving DecidableEq, Repr

namespace JSNum

/-- JavaScript `a < b` — false whenever either side is NaN. -/
def jsLt : JSNum → JSNum → Bool
  | num a, num b => decide (a < b)
  | num _, inf => true
  | num _, ninf => false
  | num _, nan => false
  | inf, _ => false
  | ninf, num _ => true
  | ninf, inf => true
  | ninf, ninf => false
  | ninf, nan => false
  | nan, _ => false

/-- JavaScript `a <= b` — false whenever either side is NaN. -/
def jsLe : JSNum → JSNum → Bool
  | num a, num b => decide (a ≤ b)
  | num _, inf => true
  | num _, ninf => false
  | num _, nan => false
  | inf, inf => true
  | inf, num _ => false
  | inf, ninf => false
  | inf, nan => false
  | ninf, nan => false
  | ninf, _ => true
  | nan, _ => false

/-- JavaScript `a > b`. -/
def jsGt (a b : JSNum) : Bool := jsLt b a

/-- JavaScript truthiness of a number: `0` and `NaN` are falsy. -/
def truthy : JSNum → Bool
  | num v => decide (v ≠ 0)
  | inf => true
  | ninf => true
  | nan => false

/-- JavaScript `isNaN`. -/
def isNaNb : JSNum → Bool
  | nan => true
  | _ => false

end JSNum

open JSNum

/-- Numeric coercion of a possibly-absent property: `+undefined` is `NaN`. -/
def toNum (o : Option JSNum) : JSNum := o.getD .nan

/-- The `props` argument of the `SmartStream` constructor.  `none` models an
absent (`undefined`) property. -/
structure Props where
  contentType : Option String := none
  contentEncoding : Option String := none
  contentLength : Option JSNum := none
  limit : Option JSNum := none
  timeout : Option JSNum := none
  interval : Option JSNum := none
deriving DecidableEq, Repr

/-- A character of the regex class `[\w-]`. -/
def isWordCharB (c : Char) : Bool :=
  c.isAlphanum || c = '_' || c = '-'

/-- JavaScript regex line terminators, which `.` does not match. -/
def isLineTerm (c : Char) : Bool :=
  c = Char.ofNat 10 || c = Char.ofNat 13 ||
  c = Char.ofNat 0x2028 || c = Char.ofNat 0x2029

/-- The six MIME type families accepted by the `CONTENT_TYPES` pattern. -/
def TYPE_FAMILIES : List String :=
  ["application", "audio", "image", "multipart", "text", "video"]

/-- Character-list prefix test (structural, used instead of
`String.startsWith` so that symbolic terms stay inert). -/
def listStartsWithB : List Char → List Char → Bool
  | [], _ => true
  | _ :: _, [] => false
  | c :: cs, d :: ds => c = d && listStartsWithB cs ds

/-- The type family whose name followed by a slash starts the given string. -/
def familyOf (s : String) : Option String :=
  TYPE_FAMILIES.find? (fun t => listStartsWithB (t ++ "/").data s.data)

/-- Models `CONTENT_TYPES.test(s)` for the anchored pattern
`(application|audio|image|multipart|text|video)\/([\w-]+);?.*$` (no `s` flag,
so the trailing `.*` cannot cross a line terminator). -/
def validContentTypeB (s : String) : Bool :=
  match familyOf s with
  | none => false
  | some t =>
    match s.data.drop (t.length + 1) with
    | [] => false
    | c :: rest => isWordCharB c && rest.all (fun d => !isLineTerm d)

/-- Models capture group 1 of `CONTENT_TYPES.exec(s)`: the type family, the
slash, and the (greedy) maximal run of `[\w-]` characters of the subtype. -/
def essenceOf (s : String) : String :=
  match familyOf s with
  | none => ""
  | some t =>
    t ++ "/" ++ String.mk ((s.data.drop (t.length + 1)).takeWhile isWordCharB)

/-- Models `CONTENT_ENCODINGS.test`: exactly `identity`, `gzip`, `deflate`. -/
def validEncodingB (s : String) : Bool :=
  s = "identity" || s = "gzip" || s = "deflate"

/-- Models `DESERIALIZABLE_TYPES.test` on the MIME essence. -/
def isDeserializableB (essence : String) : Bool :=
  essence = "application/json" || essence = "application/msgpack" ||
  essence = "application/x-www-form-urlencoded"

/-- The metadata descriptor produced by `SmartStream#toJSON`. -/
structure Metadata where
  contentType : String
  contentEncoding : String
  contentLength : Option JSNum := none
deriving DecidableEq, Repr

/-- The typed faults of the stream module (`SmartStreamError` codes used by
the stream core). -/
inductive Fault where
  | tooLarge (meta : Metadata)
  | timedOut (duration : Nat)
  | unexpected
deriving DecidableEq, Repr

/-- The stream's timer slot: the no-op object installed for `timeout === 0`,
a live `SmartTimer`, or no timer at all (the oversized-declared-length branch
never creates one). -/
inductive Timer where
  | noop
  | smart (timeout interval : JSNum)
  | absent
deriving DecidableEq, Repr

/-- The stream's lifecycle state.  `errored` covers the Errored/Destroyed
terminal state reached with a fault. -/
inductive Status where
  | opened
  | flushed
  | errored (f : Fault)
deriving DecidableEq, Repr

/-- The mutable state of a `SmartStream` instance. -/
structure StreamState where
  contentTypeRaw : String
  contentType : String
  contentEncoding : String
  contentLength : Option JSNum
  size : Nat
  limit : JSNum
  timeout : JSNum
  interval : JSNum
  timer : Timer
  pendingDestroy : Option Fault
  status : Status
deriving DecidableEq, Repr

instance : Inhabited StreamState :=
  ⟨⟨"", "", "", none, 0, .nan, .nan, .nan, .absent, none, .opened⟩⟩

/-- The synchronous construction failures (`TypeError`s thrown by the
`SmartStream` constructor, plus the errors the `SmartTimer` constructor can
throw from inside it). -/
inductive CErr where
  | badContentType
  | badEncoding
  | badContentLength
  | badLimit
  | badTimeoutInterval
  | timerBadTimeout
  | timerBadInterval
  | timerIntervalGtTimeout
deriving DecidableEq, Repr

/-- `Object.assign({}, props).contentLength` after coercion:
`+props.contentLength || undefined`. -/
def contentLengthOf (props : Props) : Option JSNum :=
  if truthy (toNum props.contentLength) then some (toNum props.contentLength)
  else none

/-- The stream's content-type essence (`CONTENT_TYPES.exec(...)[1]`), with the
JavaScript coercion of an absent property to the string `"undefined"`. -/
def essenceP (props : Props) : String :=
  essenceOf (props.contentType.getD "undefined")

/-- `+props.limit || (isDeserializable ? 64 KiB : 10 MiB)`. -/
def limitOf (props : Props) : JSNum :=
  if truthy (toNum props.limit) then toNum props.limit
  else if isDeserializableB (essenceP props) then .num 65536
  else .num 10485760

/-- `+props.timeout >= 0 ? +props.timeout : 30000`. -/
def timeoutOf (props : Props) : JSNum :=
  if jsLe (.num 0) (toNum props.timeout) then toNum props.timeout
  else .num 30000

/-- `+props.interval >= 0 ? +props.interval : 1000`. -/
def intervalOf (props : Props) : JSNum :=
  if jsLe (.num 0) (toNum props.interval) then toNum props.interval
  else .num 1000

/-- `SmartStream#toJSON`: the metadata descriptor; `contentLength` only when
`+this._contentLength > 0`. -/
def toJSON (s : StreamState) : Metadata :=
  { contentType := s.contentTypeRaw
    contentEncoding := s.contentEncoding
    contentLength :=
      if jsLt (.num 0) (toNum s.contentLength) then s.contentLength else none }

/-- Models `new SmartTimer({ timeout, interval }, cb)` as invoked by the
stream constructor: validation of the timer source, then a live timer. -/
def smartTimerNew (timeout interval : JSNum) : Except CErr Timer :=
  if jsLt timeout (.num 0) then .error .timerBadTimeout
  else if jsLt interval (.num 0) then .error .timerBadInterval
  else if jsGt interval timeout then .error .timerIntervalGtTimeout
  else .ok (.smart timeout interval)

/-- The synchronous validation chain at the top of the `SmartStream`
constructor (the `props == null` guard is vacuous here since `Props` is a
total structure). -/
def validationError (props : Props) : Option CErr :=
  if !validContentTypeB (props.contentType.getD "undefined") then
    some .badContentType
  else if !validEncodingB (props.contentEncoding.getD "undefined") then
    some .badEncoding
  else if jsLe (toNum props.contentLength) (.num 0) then
    some .badContentLength
  else if props.limit.isSome &&
      (isNaNb (toNum props.limit) || jsLe (toNum props.limit) (.num 0)) then
    some .badLimit
  else if jsLt (toNum props.timeout) (toNum props.interval) then
    some .badTimeoutInterval
  else none

/-- The field assignments of the `SmartStream` constructor, before the
oversized-declared-length check and timer setup. -/
def initState (props : Props) : StreamState :=
  { contentTypeRaw := props.contentType.getD "undefined"
    contentType := essenceP props
    contentEncoding := props.contentEncoding.getD "undefined"
    contentLength := contentLengthOf props
    size := 0
    limit := limitOf props
    timeout := timeoutOf props
    interval := intervalOf props
    timer := .absent
    pendingDestroy := none
    status := .opened }

/-- The tail of the `SmartStream` constructor (after validation).  When
`+contentLength > limit` the constructor schedules an immediate self-destroy
with a `TooLarge` fault instead of starting a timer; when `timeout === 0` the
timer slot gets the no-op object; otherwise a live `SmartTimer` is started
(whose own constructor may throw). -/
def buildState (props : Props) : Except CErr StreamState :=
  if jsGt (toNum (initState props).contentLength) (initState props).limit then
    .ok { initState props with
          pendingDestroy := some (.tooLarge (toJSON (initState props))) }
  else if (initState props).timeout = .num 0 then
    .ok { initState props with timer := .noop }
  else
    match smartTimerNew (initState props).timeout (initState props).interval with
    | .error e => .error e
    | .ok tm => .ok { initState props with timer := tm }

/-- `new SmartStream(props)`: synchronous validation, then field assignment
and timer setup. -/
def construct (props : Props) : Except CErr StreamState :=
  match validationError props with
  | some e => .error e
  | none => buildState props

/-- Observable events while data flows: a chunk passed through (identified by
its byte length) or a fault surfaced on the stream. -/
inductive Ev where
  | data (byteLength : Nat)
  | fault (f : Fault)
deriving DecidableEq, Repr

/-- `this._size > this._limit` for the updated size. -/
def sizeExceeds (n : Nat) (limit : JSNum) : Bool := jsLt limit (.num n)

/-- The transform callback applied to a whole chunk sequence: each chunk adds
its byte length to `size`; on a limit breach the stream errors with
`TooLarge(this.toJSON())` and no later chunk is processed. -/
def consume (s : StreamState) : List Nat → StreamState × List Ev
  | [] => (s, [])
  | c :: cs =>
    if s.status = .opened then
      let sz := s.size + c
      if sizeExceeds sz s.limit then
        let f := Fault.tooLarge (toJSON { s with size := sz })
        ({ s with size := sz, status := .errored f }, [.fault f])
      else
        let out := consume { s with size := sz } cs
        (out.1, .data c :: out.2)
    else (s, [])

/-- The flush callback: destroy the timer, backfill `contentLength` from the
observed size when it was absent, and finish. -/
def flushStream (s : StreamState) : StreamState :=
  { s with
    status := .flushed
    contentLength :=
      match s.contentLength with
      | none => some (.num (s.size : Int))
      | some v => some v }

/-- End-of-input: flush only if the stream is still open. -/
def finish (s : StreamState) : StreamState :=
  if s.status = .opened then flushStream s else s

/-- A whole lifecycle run: construct, then either the scheduled immediate
destroy fires (before any external data is processed and before any data
event), or the chunks are consumed and end-of-input is signaled. -/
def runStreamTrace (props : Props) (chunks : List Nat) :
    Except CErr (StreamState × List Ev) :=
  match construct props with
  | .error e => .error e
  | .ok s =>
    match s.pendingDestroy with
    | some f => .ok ({ s with status := .errored f }, [])
    | none =>
      let out := consume s chunks
      .ok (finish out.1, out.2)

/-- `Object.assign({ contentType: ..., contentEncoding: ... }, props)` as used
by `SmartStream.create` and `SmartStream.fromStream`. -/
def mergeTypeDefaults (p : Props) : Props :=
  { p with
    contentType := some (p.contentType.getD "application/octet-stream")
    contentEncoding := some (p.contentEncoding.getD "identity") }

/-- `SmartStream.create(props)`. -/
def create (props : Props) : Except CErr StreamState :=
  construct (mergeTypeDefaults props)

/-- `SmartStream.fromStream(stream, props)`: merge the type defaults, disable
bounding when the source is itself a `SmartStream`, then `create`. -/
def fromStream (sourceIsSmartStream : Bool) (props : Props) :
    Except CErr StreamState :=
  let p := mergeTypeDefaults props
  let p :=
    if sourceIsSmartStream then
      { p with
        limit := some .inf
        timeout := some (.num 0)
        interval := some (.num 0) }
    else p
  create p

/-- `SmartStream.fromBuffer(buf, props)`: the constructed stream (the source
then ends the stream with the buffer as its single chunk); `contentLength`
and `limit` are both overridden with `Buffer.byteLength(buf)`. -/
def fromBuffer (buf : List Nat) (props : Props) : Except CErr StreamState :=
  create
    { mergeTypeDefaults props with
      contentLength := some (.num (buf.length : Int))
      limit := some (.num (buf.length : Int)) }

instance {ε α : Type} [DecidableEq ε] [DecidableEq α] :
    DecidableEq (Except ε α) := fun x y =>
  match x, y with
  | .ok a, .ok b =>
    if h : a = b then isTrue (by rw [h])
    else isFalse (fun hh => h (Except.ok.inj hh))
  | .error a, .error b =>
    if h : a = b then isTrue (by rw [h])
    else isFalse (fun hh => h (Except.error.inj hh))
  | .ok _, .error _ => isFalse (fun hh => Except.noConfusion hh)
  | .error _, .ok _ => isFalse (fun hh => Except.noConfusion hh)

/-- The transcoding pipeline built by `Util.compress`/`Util.decompress` around
the original stream. -/
inductive Chain where
  | source
  | compress (encoding : String) (src : Chain)
  | decompress (encoding : String) (src : Chain)
deriving DecidableEq, Repr

/-- Result of `SmartStream#toContentEncoding`: either the very same instance,
or a new stream wrapped around a transcoding chain. -/
inductive TranscodeResult where
  | same
  | transcoded (chain : Chain) (stream : Except CErr StreamState)
deriving DecidableEq, Repr

/-- `SmartStream#toContentEncoding(target)`.  The chain's outermost stream is
always a zlib transform (never a `SmartStream`), so `fromStream` takes its
non-SmartStream branch; the props are `Object.assign(this.toJSON(),
{ contentEncoding, limit: Infinity, timeout: 0, interval: 0 })`. -/
def toContentEncoding (s : StreamState) (target : String) : TranscodeResult :=
  if s.contentEncoding = target then .same
  else
    let chain :=
      if s.contentEncoding = "identity" then Chain.compress target .source
      else if target = "identity" then Chain.decompress s.contentEncoding .source
      else Chain.compress target (Chain.decompress s.contentEncoding .source)
    let meta := toJSON s
    .transcoded chain
      (fromStream false
        { contentType := some meta.contentType
          contentEncoding := some target
          contentLength := meta.contentLength
          limit := some .inf
          timeout := some (.num 0)
          interval := some (.num 0) })

/-- The chain shape described by the specification: decompress the current
encoding when it is not identity, then compress to the target when the target
is not identity. -/
def specChain (source target : String) : Chain :=
  let afterDecompress :=
    if source ≠ "identity" then Chain.decompress source .source else .source
  if target ≠ "identity" then Chain.compress target afterDecompress
  else afterDecompress

/-- Whether the stream's timer would fire a `TimedOut` fault after `elapsed`
milliseconds without activity: a live `SmartTimer` fires once the idle time
reaches its timeout; the no-op timer and the absent timer never fire. -/
def idleFault (s : StreamState) (elapsed : Nat) : Option Fault :=
  match s.timer with
  | .smart t _ => if jsLe t (.num (elapsed : Int)) then some (.timedOut elapsed) else none
  | _ => none

/-! ### Serializer layer

`Util.serialize`/`Util.deserialize` dispatch on the content type to the
platform JSON codec, the `msgpack5` codec and Node's `querystring` codec.
Those codecs are external collaborators of the repository; they are modelled
here byte-for-byte on the representative value domain (null, strings, and
flat string-valued objects — the shapes the repository's own tests
exercise). -/

/-- A representative structured value: `null`, a string, or a flat object
with string keys and string values (modelling a JavaScript object, whose keys
are necessarily distinct). -/
inductive RepValue where
  | rnull
  | rstr (s : String)
  | rmap (kvs : List (String × String))
deriving DecidableEq, Repr

/-- UTF-8 encoding of one character. -/
def utf8EncodeChar (c : Char) : List Nat :=
  let v := c.toNat
  if v < 0x80 then [v]
  else if v < 0x800 then [0xc0 + v / 64, 0x80 + v % 64]
  else if v < 0x10000 then
    [0xe0 + v / 4096, 0x80 + v / 64 % 64, 0x80 + v % 64]
  else
    [0xf0 + v / 262144, 0x80 + v / 4096 % 64, 0x80 + v / 64 % 64, 0x80 + v % 64]

/-- UTF-8 encoding of a character list. -/
def utf8Encode : List Char → List Nat
  | [] => []
  | c :: cs => utf8EncodeChar c ++ utf8Encode cs

/-- Decode one UTF-8 scalar from the head of a byte list. -/
def utf8DecodeChar : List Nat → Option (Char × List Nat)
  | [] => none
  | b0 :: rest =>
    if b0 < 0x80 then some (Char.ofNat b0, rest)
    else if b0 < 0xc0 then none
    else if b0 < 0xe0 then
      match rest with
      | b1 :: r =>
        if 0x80 ≤ b1 && b1 < 0xc0 then
          let v := (b0 - 0xc0) * 64 + (b1 - 0x80)
          if 0x80 ≤ v then some (Char.ofNat v, r) else none
        else none
      | [] => none
    else if b0 < 0xf0 then
      match rest with
      | b1 :: b2 :: r =>
        if (0x80 ≤ b1 && b1 < 0xc0) && (0x80 ≤ b2 && b2 < 0xc0) then
          let v := (b0 - 0xe0) * 4096 + (b1 - 0x80) * 64 + (b2 - 0x80)
          if 0x800 ≤ v && !(0xd800 ≤ v && v < 0xe000) then
            some (Char.ofNat v, r)
          else none
        else none
      | _ => none
    else if b0 < 0xf8 then
      match rest with
      | b1 :: b2 :: b3 :: r =>
        if (0x80 ≤ b1 && b1 < 0xc0) && (0x80 ≤ b2 && b2 < 0xc0) &&
            (0x80 ≤ b3 && b3 < 0xc0) then
          let v := (b0 - 0xf0) * 262144 + (b1 - 0x80) * 4096 +
            (b2 - 0x80) * 64 + (b3 - 0x80)
          if 0x10000 ≤ v && v < 0x110000 then some (Char.ofNat v, r) else none
        else none
      | _ => none
    else none

/-- Decode a full byte list as UTF-8 (fuel-indexed; each step consumes at
least one byte, so fuel equal to the byte count suffices). -/
def utf8DecodeAux : Nat → List Nat → Option (List Char)
  | _, [] => some []
  | 0, _ :: _ => none
  | fuel + 1, bs =>
    match utf8DecodeChar bs with
    | none => none
    | some (c, rest) => (utf8DecodeAux fuel rest).map (fun cs => c :: cs)

/-- `Buffer.prototype.toString('utf8')` on a valid UTF-8 buffer (invalid
input is modelled as failure; it only ever receives codec output here). -/
def bufToString (bs : List Nat) : Option String :=
  (utf8DecodeAux bs.length bs).map String.mk

/-- `Buffer.from(s, 'utf8')`. -/
def bufFromString (s : String) : List Nat := utf8Encode s.data

/-- Lower-case hexadecimal digit. -/
def hexDigitChar (n : Nat) : Char :=
  if n < 10 then Char.ofNat (48 + n) else Char.ofNat (87 + n)

/-- Upper-case hexadecimal digit (as produced by `encodeURIComponent`). -/
def hexUpperChar (n : Nat) : Char :=
  if n < 10 then Char.ofNat (48 + n) else Char.ofNat (55 + n)

/-- Value of a hexadecimal digit character (either case). -/
def hexVal (c : Char) : Option Nat :=
  if '0' ≤ c && c ≤ '9' then some (c.toNat - 48)
  else if 'a' ≤ c && c ≤ 'f' then some (c.toNat - 87)
  else if 'A' ≤ c && c ≤ 'F' then some (c.toNat - 55)
  else none

/-- `JSON.stringify` escaping of one string character. -/
def jsonEscapeChar (c : Char) : List Char :=
  if c = '"' then ['\\', '"']
  else if c = '\\' then ['\\', '\\']
  else if c = Char.ofNat 8 then ['\\', 'b']
  else if c = Char.ofNat 9 then ['\\', 't']
  else if c = Char.ofNat 10 then ['\\', 'n']
  else if c = Char.ofNat 12 then ['\\', 'f']
  else if c = Char.ofNat 13 then ['\\', 'r']
  else if c.toNat < 0x20 then
    ['\\', 'u', '0', '0', hexDigitChar (c.toNat / 16), hexDigitChar (c.toNat % 16)]
  else [c]

/-- `JSON.stringify` escaping of a character list. -/
def jsonEscapeList : List Char → List Char
  | [] => []
  | c :: cs => jsonEscapeChar c ++ jsonEscapeList cs

/-- A double-quoted, escaped JSON string literal. -/
def jsonQuote (s : String) : List Char :=
  '"' :: (jsonEscapeList s.data ++ ['"'])

/-- The members of a stringified JSON object, separated by commas. -/
def jsonStringifyPairs : List (String × String) → List Char
  | [] => []
  | [(k, v)] => jsonQuote k ++ ':' :: jsonQuote v
  | (k, v) :: rest =>
    jsonQuote k ++ ':' :: (jsonQuote v ++ ',' :: jsonStringifyPairs rest)

/-- `JSON.stringify` on the representative domain. -/
def jsonStringify : RepValue → List Char
  | .rnull => ['n', 'u', 'l', 'l']
  | .rstr s => jsonQuote s
  | .rmap kvs =>
    Char.ofNat 123 :: (jsonStringifyPairs kvs ++ [Char.ofNat 125])

/-- Parse the body of a JSON string literal up to its closing quote,
undoing `JSON.stringify` escapes (fuel-indexed on the character count). -/
def jsonParseStringBody : Nat → List Char → Option (List Char × List Char)
  | 0, _ => none
  | _, [] => none
  | fuel + 1, c :: rest =>
    if c = '"' then some ([], rest)
    else if c = '\\' then
      match rest with
      | [] => none
      | e :: rest' =>
        if e = '"' then
          (jsonParseStringBody fuel rest').map (fun p => ('"' :: p.1, p.2))
        else if e = '\\' then
          (jsonParseStringBody fuel rest').map (fun p => ('\\' :: p.1, p.2))
        else if e = 'b' then
          (jsonParseStringBody fuel rest').map (fun p => (Char.ofNat 8 :: p.1, p.2))
        else if e = 't' then
          (jsonParseStringBody fuel rest').map (fun p => (Char.ofNat 9 :: p.1, p.2))
        else if e = 'n' then
          (jsonParseStringBody fuel rest').map (fun p => (Char.ofNat 10 :: p.1, p.2))
        else if e = 'f' then
          (jsonParseStringBody fuel rest').map (fun p => (Char.ofNat 12 :: p.1, p.2))
        else if e = 'r' then
          (jsonParseStringBody fuel rest').map (fun p => (Char.ofNat 13 :: p.1, p.2))
        else if e = '/' then
          (jsonParseStringBody fuel rest').map (fun p => ('/' :: p.1, p.2))
        else if e = 'u' then
          match rest' with
          | h1 :: h2 :: h3 :: h4 :: rest'' =>
            match hexVal h1, hexVal h2, hexVal h3, hexVal h4 with
            | some a, some b, some c2, some d =>
              let v := a * 4096 + b * 256 + c2 * 16 + d
              if v < 0xd800 || 0xe000 ≤ v then
                (jsonParseStringBody fuel rest'').map
                  (fun p => (Char.ofNat v :: p.1, p.2))
              else none
            | _, _, _, _ => none
          | _ => none
        else none
    else (jsonParseStringBody fuel rest).map (fun p => (c :: p.1, p.2))

/-- Parse one `"key":"value"` member of a JSON object. -/
def jsonParsePair (fuel : Nat) (cs : List Char) :
    Option ((String × String) × List Char) :=
  match cs with
  | '"' :: rest =>
    match jsonParseStringBody fuel rest with
    | some (k, rest1) =>
      match rest1 with
      | ':' :: '"' :: rest2 =>
        match jsonParseStringBody fuel rest2 with
        | some (v, rest3) => some ((String.mk k, String.mk v), rest3)
        | none => none
      | _ => none
    | none => none
  | _ => none

/-- Parse the members of a non-empty JSON object up to its closing brace. -/
def jsonParsePairs : Nat → List Char → Option (List (String × String) × List Char)
  | 0, _ => none
  | fuel + 1, cs =>
    match jsonParsePair (fuel + 1) cs with
    | none => none
    | some (kv, rest) =>
      match rest with
      | [] => none
      | c :: rest' =>
        if c = ',' then
          (jsonParsePairs fuel rest').map (fun p => (kv :: p.1, p.2))
        else if c = Char.ofNat 125 then some ([kv], rest')
        else none

/-- Parse a JSON value of the representative grammar (null, string, or flat
object of strings — the fragment of `JSON.parse` the codec model needs). -/
def jsonParseValue (fuel : Nat) (cs : List Char) : Option (RepValue × List Char) :=
  match cs with
  | [] => none
  | c :: rest =>
    if c = 'n' then
      match rest with
      | 'u' :: 'l' :: 'l' :: rest2 => some (.rnull, rest2)
      | _ => none
    else if c = '"' then
      (jsonParseStringBody fuel rest).map
        (fun p => (.rstr (String.mk p.1), p.2))
    else if c = Char.ofNat 123 then
      match rest with
      | d :: rest2 =>
        if d = Char.ofNat 125 then some (.rmap [], rest2)
        else (jsonParsePairs fuel rest).map (fun p => (.rmap p.1, p.2))
      | [] => none
    else none

/-- `JSON.parse` on the representative grammar: a single value consuming the
whole text. -/
def jsonParse (cs : List Char) : Option RepValue :=
  match jsonParseValue (cs.length + 1) cs with
  | some (v, []) => some v
  | _ => none

/-- The characters `encodeURIComponent` leaves unescaped. -/
def unreservedB (c : Char) : Bool :=
  c.isAlphanum || c = '-' || c = '_' || c = '.' || c = '!' || c = '~' ||
  c = '*' || c = Char.ofNat 39 || c = '(' || c = ')'

/-- Percent-encoding of a UTF-8 byte sequence (`querystring.escape`). -/
def percentEncodeBytes : List Nat → List Char
  | [] => []
  | b :: bs =>
    (if b < 128 && unreservedB (Char.ofNat b) then [Char.ofNat b]
     else ['%', hexUpperChar (b / 16), hexUpperChar (b % 16)]) ++
    percentEncodeBytes bs

/-- `querystring.escape` of a string. -/
def qsEscape (s : String) : List Char := percentEncodeBytes (utf8Encode s.data)

/-- Percent-decoding back to bytes (`+` decodes to a space, as in
`querystring.parse`); fuel-indexed on the character count. -/
def percentDecodeAux : Nat → List Char → Option (List Nat)
  | _, [] => some []
  | 0, _ :: _ => none
  | fuel + 1, c :: rest =>
    if c = '%' then
      match rest with
      | h1 :: h2 :: rest' =>
        match hexVal h1, hexVal h2 with
        | some a, some b =>
          (percentDecodeAux fuel rest').map (fun bs => (a * 16 + b) :: bs)
        | _, _ => none
      | _ => none
    else if c = '+' then (percentDecodeAux fuel rest).map (fun bs => 32 :: bs)
    else (percentDecodeAux fuel rest).map (fun bs => utf8EncodeChar c ++ bs)

/-- `querystring.unescape` of a component. -/
def qsUnescape (cs : List Char) : Option String :=
  (percentDecodeAux cs.length cs).bind bufToString

/-- The `k=v` segments of `querystring.stringify`, joined with ampersands. -/
def qsStringifyPairs : List (String × String) → List Char
  | [] => []
  | [(k, v)] => qsEscape k ++ '=' :: qsEscape v
  | (k, v) :: rest =>
    qsEscape k ++ '=' :: (qsEscape v ++ '&' :: qsStringifyPairs rest)

/-- Split a character list on a separator character. -/
def splitOnChar (sep : Char) : List Char → List (List Char)
  | [] => [[]]
  | c :: rest =>
    let r := splitOnChar sep rest
    if c = sep then [] :: r
    else
      match r with
      | seg :: segs => (c :: seg) :: segs
      | [] => [[c]]

/-- Split a segment at its first `=` (a missing `=` yields an empty value,
as in `querystring.parse`). -/
def splitKV : List Char → List Char × List Char
  | [] => ([], [])
  | c :: rest =>
    if c = '=' then ([], rest)
    else
      let p := splitKV rest
      (c :: p.1, p.2)

/-- `querystring.parse` on the image of `querystring.stringify` over
duplicate-free flat string maps (the representative domain; insertion order
is preserved). -/
def qsParse (cs : List Char) : Option (List (String × String)) :=
  if cs = [] then some []
  else
    (splitOnChar '&' cs).mapM (fun seg =>
      let kv := splitKV seg
      match qsUnescape kv.1, qsUnescape kv.2 with
      | some k, some v => some (k, v)
      | _, _ => none)

/-- The msgpack header for a string of `n` UTF-8 bytes (fixstr/str8/str16/
str32, as emitted by `msgpack5`). -/
def mpStrHeader (n : Nat) : List Nat :=
  if n < 32 then [0xa0 + n]
  else if n < 256 then [0xd9, n]
  else if n < 65536 then [0xda, n / 256, n % 256]
  else [0xdb, n / 16777216 % 256, n / 65536 % 256, n / 256 % 256, n % 256]

/-- The msgpack header for a map of `n` entries (fixmap/map16/map32). -/
def mpMapHeader (n : Nat) : List Nat :=
  if n < 16 then [0x80 + n]
  else if n < 65536 then [0xde, n / 256, n % 256]
  else [0xdf, n / 16777216 % 256, n / 65536 % 256, n / 256 % 256, n % 256]

/-- msgpack encoding of a string. -/
def mpEncodeStr (s : String) : List Nat :=
  let bs := utf8Encode s.data
  mpStrHeader bs.length ++ bs

/-- msgpack encoding of the members of a map (string keys, string values). -/
def mpEncodePairs : List (String × String) → List Nat
  | [] => []
  | (k, v) :: rest => mpEncodeStr k ++ (mpEncodeStr v ++ mpEncodePairs rest)

/-- `msgpack5().encode` on the representative domain. -/
def mpEncode : RepValue → List Nat
  | .rnull => [0xc0]
  | .rstr s => mpEncodeStr s
  | .rmap kvs => mpMapHeader kvs.length ++ mpEncodePairs kvs

/-- Read a msgpack string payload of `len` bytes. -/
def mpReadStr (len : Nat) (bs : List Nat) : Option (RepValue × List Nat) :=
  if len ≤ bs.length then
    (bufToString (bs.take len)).map (fun s => (RepValue.rstr s, bs.drop len))
  else none

/-- Decode a msgpack scalar of the representative domain (nil or string). -/
def mpDecodeScalar : List Nat → Option (RepValue × List Nat)
  | [] => none
  | b :: rest =>
    if b = 0xc0 then some (.rnull, rest)
    else if 0xa0 ≤ b && b ≤ 0xbf then mpReadStr (b - 0xa0) rest
    else if b = 0xd9 then
      match rest with
      | n :: r => mpReadStr n r
      | [] => none
    else if b = 0xda then
      match rest with
      | n1 :: n2 :: r => mpReadStr (n1 * 256 + n2) r
      | _ => none
    else if b = 0xdb then
      match rest with
      | n1 :: n2 :: n3 :: n4 :: r =>
        mpReadStr (n1 * 16777216 + n2 * 65536 + n3 * 256 + n4) r
      | _ => none
    else none

/-- Decode `n` key/value members of a msgpack map (string keys and string
values on the representative domain). -/
def mpDecodePairs : Nat → List Nat → Option (List (String × String) × List Nat)
  | 0, bs => some ([], bs)
  | n + 1, bs =>
    match mpDecodeScalar bs with
    | some (.rstr k, bs1) =>
      match mpDecodeScalar bs1 with
      | some (.rstr v, bs2) =>
        (mpDecodePairs n bs2).map (fun p => ((k, v) :: p.1, p.2))
      | _ => none
    | _ => none

/-- `msgpack5().decode` on the representative domain. -/
def mpDecode (bs : List Nat) : Option (RepValue × List Nat) :=
  match bs with
  | [] => none
  | b :: rest =>
    if 0x80 ≤ b && b ≤ 0x8f then
      (mpDecodePairs (b - 0x80) rest).map (fun p => (RepValue.rmap p.1, p.2))
    else if b = 0xde then
      match rest with
      | n1 :: n2 :: r =>
        (mpDecodePairs (n1 * 256 + n2) r).map (fun p => (RepValue.rmap p.1, p.2))
      | _ => none
    else if b = 0xdf then
      match rest with
      | n1 :: n2 :: n3 :: n4 :: r =>
        (mpDecodePairs (n1 * 16777216 + n2 * 65536 + n3 * 256 + n4) r).map
          (fun p => (RepValue.rmap p.1, p.2))
      | _ => none
    else mpDecodeScalar bs

/-- `Util.serialize(type, data)`: dispatch on the three supported content
types (an unknown type throws, modelled as `none`).  `querystring.stringify`
of a non-object primitive yields the empty string. -/
def serialize (type : String) (data : RepValue) : Option (List Nat) :=
  if type = "application/json" then
    some (bufFromString (String.mk (jsonStringify data)))
  else if type = "application/msgpack" then some (mpEncode data)
  else if type = "application/x-www-form-urlencoded" then
    match data with
    | .rmap kvs => some (utf8Encode (qsStringifyPairs kvs))
    | _ => some []
  else none

/-- `Util.deserialize(type, data)`: dispatch on the three supported content
types; the JSON branch maps a parsed value equal to the string `'null'` to
`null`. -/
def deserialize (type : String) (data : List Nat) : Option RepValue :=
  if type = "application/json" then
    match bufToString data with
    | none => none
    | some s =>
      match jsonParse s.data with
      | none => none
      | some v => some (if v = .rstr "null" then .rnull else v)
  else if type = "application/msgpack" then
    match mpDecode data with
    | some (v, []) => some v
    | _ => none
  else if type = "application/x-www-form-urlencoded" then
    match bufToString data with
    | none => none
    | some s => (qsParse s.data).map RepValue.rmap
  else none

/-- Duplicate-freedom of the keys of a flat map (a JavaScript object cannot
carry duplicate keys). -/
def nodupKeysB : List (String × String) → Bool
  | [] => true
  | (k, _) :: rest => !(rest.any (fun p => p.1 = k)) && nodupKeysB rest

/-- Size bounds inherent to the msgpack wire format (str32/map32 cap counts
at 2^32 − 1; the JavaScript library cannot exceed them either). -/
def mpSizedB : RepValue → Bool
  | .rnull => true
  | .rstr s => decide ((utf8Encode s.data).length < 4294967296)
  | .rmap kvs =>
    decide (kvs.length < 4294967296) &&
    kvs.all (fun p =>
      decide ((utf8Encode p.1.data).length < 4294967296) &&
      decide ((utf8Encode p.2.data).length < 4294967296))

/-- Whether a value is representative for a content type: any of the domain
for JSON and msgpack (within the msgpack wire-format size caps), only flat
maps for URL-encoded forms; map keys must be duplicate-free (JavaScript
object keys are). -/
def representableB (type : String) (v : RepValue) : Bool :=
  if type = "application/json" then
    match v with
    | .rmap kvs => nodupKeysB kvs
    | _ => true
  else if type = "application/msgpack" then
    mpSizedB v &&
    (match v with
     | .rmap kvs => nodupKeysB kvs
     | _ => true)
  else if type = "application/x-www-form-urlencoded" then
    match v with
    | .rmap kvs => nodupKeysB kvs
    | _ => false
  else false

/-! ### Supporting lemmas about the stream core -/

theorem jsGt_inf_right (v : JSNum) : jsGt v .inf = false := by
  cases v <;> rfl

theorem sizeExceeds_mono {n m : Nat} {l : JSNum} (hnm : n ≤ m)
    (h : sizeExceeds m l = false) : sizeExceeds n l = false := by
  cases l <;> simp [sizeExceeds, jsLt] at h ⊢ <;> omega

theorem toJSON_size (s : StreamState) (n : Nat) :
    toJSON { s with size := n } = toJSON s := rfl

theorem construct_eq_ok {props : Props} {s : StreamState} :
    construct props = .ok s ↔
      validationError props = none ∧ buildState props = .ok s := by
  unfold construct
  cases h : validationError props <;> simp

theorem buildState_ok_fields {props : Props} {s : StreamState}
    (h : buildState props = .ok s) :
    s.contentTypeRaw = props.contentType.getD "undefined" ∧
    s.contentType = essenceP props ∧
    s.contentEncoding = props.contentEncoding.getD "undefined" ∧
    s.contentLength = contentLengthOf props ∧
    s.size = 0 ∧
    s.limit = limitOf props ∧
    s.timeout = timeoutOf props ∧
    s.interval = intervalOf props ∧
    s.status = .opened := by
  unfold buildState at h
  split at h
  · cases h
    exact ⟨rfl, rfl, rfl, rfl, rfl, rfl, rfl, rfl, rfl⟩
  · split at h
    · cases h
      exact ⟨rfl, rfl, rfl, rfl, rfl, rfl, rfl, rfl, rfl⟩
    · split at h
      · cases h
      · cases h
        exact ⟨rfl, rfl, rfl, rfl, rfl, rfl, rfl, rfl, rfl⟩

theorem buildState_destroy_branch {props : Props}
    (hgt : jsGt (toNum (contentLengthOf props)) (limitOf props) = true) :
    buildState props =
      .ok { initState props with
            pendingDestroy := some (.tooLarge (toJSON (initState props))) } := by
  have hgt' : jsGt (toNum (initState props).contentLength)
      (initState props).limit = true := hgt
  unfold buildState
  rw [if_pos hgt']

theorem buildState_noop_branch {props : Props}
    (h1 : jsGt (toNum (contentLengthOf props)) (limitOf props) = false)
    (h2 : timeoutOf props = .num 0) :
    buildState props = .ok { initState props with timer := .noop } := by
  have h1b : jsGt (toNum (initState props).contentLength)
      (initState props).limit = false := h1
  have h2b : (initState props).timeout = .num 0 := h2
  unfold buildState
  rw [if_neg (by simp [h1b]), if_pos h2b]

theorem limitOf_inf {props : Props} (h : props.limit = some .inf) :
    limitOf props = .inf := by
  unfold limitOf
  rw [h]
  rfl

theorem timeoutOf_zero {props : Props} (h : props.timeout = some (.num 0)) :
    timeoutOf props = .num 0 := by
  unfold timeoutOf
  rw [h]
  rfl

theorem buildState_pendingDestroy {props : Props} {s : StreamState}
    (h : buildState props = .ok s) :
    (jsGt (toNum (contentLengthOf props)) (limitOf props) = true →
      s.pendingDestroy = some (.tooLarge (toJSON s)) ∧ s.timer = .absent) ∧
    (jsGt (toNum (contentLengthOf props)) (limitOf props) = false →
      s.pendingDestroy = none ∧
      (timeoutOf props = .num 0 → s.timer = .noop)) := by
  unfold buildState at h
  split at h
  case isTrue hgt =>
    have hgt2 : jsGt (toNum (contentLengthOf props)) (limitOf props) = true := hgt
    cases h
    refine ⟨fun _ => ⟨rfl, rfl⟩, fun hf => ?_⟩
    rw [hgt2] at hf
    cases hf
  case isFalse hgt =>
    have hgt2 : ¬jsGt (toNum (contentLengthOf props)) (limitOf props) = true := hgt
    constructor
    · intro ht
      exact absurd ht hgt2
    · intro _
      split at h
      case isTrue h0 =>
        have h02 : timeoutOf props = .num 0 := h0
        cases h
        exact ⟨rfl, fun _ => rfl⟩
      case isFalse h0 =>
        have h02 : ¬timeoutOf props = .num 0 := h0
        split at h
        · cases h
        · cases h
          exact ⟨rfl, fun hc => absurd hc h02⟩

theorem consume_within :
    ∀ (chunks : List Nat) (s : StreamState), s.status = .opened →
      sizeExceeds (s.size + chunks.sum) s.limit = false →
      consume s chunks =
        ({ s with size := s.size + chunks.sum }, chunks.map Ev.data) := by
  intro chunks
  induction chunks with
  | nil =>
    intro s hst _
    simp [consume]
  | cons c cs ih =>
    intro s hst h
    obtain ⟨ctr, ct, ce, cl, sz, lim, tmo, itv, tmr, pd, st⟩ := s
    simp only at hst h ⊢
    subst hst
    rw [List.sum_cons] at h
    have hnot : sizeExceeds (sz + c) lim = false :=
      sizeExceeds_mono (by omega) h
    have ih' := ih ⟨ctr, ct, ce, cl, sz + c, lim, tmo, itv, tmr, pd, .opened⟩
      rfl (by simpa [Nat.add_assoc] using h)
    simp only [consume, hnot, Bool.false_eq_true, if_false, if_pos] at ih' ⊢
    simp [ih', Nat.add_assoc]

theorem validationError_none {props : Props} (h : validationError props = none) :
    validContentTypeB (props.contentType.getD "undefined") = true ∧
    validEncodingB (props.contentEncoding.getD "undefined") = true ∧
    jsLe (toNum props.contentLength) (.num 0) = false ∧
    (props.limit.isSome &&
      (isNaNb (toNum props.limit) || jsLe (toNum props.limit) (.num 0))) = false ∧
    jsLt (toNum props.timeout) (toNum props.interval) = false := by
  unfold validationError at h
  split at h
  · cases h
  · split at h
    · cases h
    · split at h
      · cases h
      · split at h
        · cases h
        · split at h
          · cases h
          · rename_i h1 h2 h3 h4 h5
            simp at h1 h2 h3 h4 h5
            exact ⟨h1, h2, h3, by simpa using h4, h5⟩

theorem construct_error_of_validation {props : Props} {e : CErr}
    (h : validationError props = some e) : construct props = .error e := by
  unfold construct
  rw [h]

theorem construct_error_of_not_none {props : Props}
    (h : validationError props ≠ none) : ∃ e, construct props = .error e := by
  unfold construct
  cases hv : validationError props with
  | none => exact absurd hv h
  | some e => exact ⟨e, rfl⟩

theorem mergeTypeDefaults_idem (p : Props) :
    mergeTypeDefaults (mergeTypeDefaults p) = mergeTypeDefaults p := by
  cases p
  simp [mergeTypeDefaults]

theorem fromStream_false (p : Props) :
    fromStream false p = construct (mergeTypeDefaults p) := by
  simp only [fromStream, create, Bool.false_eq_true, if_false,
    mergeTypeDefaults_idem]

theorem create_eq (p : Props) : create p = construct (mergeTypeDefaults p) := rfl

theorem jsLe_zero_of_pos {v : JSNum} (h : jsLt (.num 0) v = true) :
    jsLe v (.num 0) = false := by
  cases v <;> simp [jsLt, jsLe] at h ⊢ <;> omega

/-- When the running prefix sum of chunk byte lengths first exceeds the limit
at chunk `k` (zero-based), consuming the chunks passes exactly the first `k`
chunks through, then raises the `TooLarge` fault built from the stream's
metadata descriptor exactly once, and processes nothing further. -/
theorem consume_firstExceed :
    ∀ (chunks : List Nat) (k : Nat) (s : StreamState), s.status = .opened →
      k < chunks.length →
      sizeExceeds (s.size + (chunks.take k).sum) s.limit = false →
      sizeExceeds (s.size + (chunks.take (k + 1)).sum) s.limit = true →
      consume s chunks =
        ({ s with size := s.size + (chunks.take (k + 1)).sum,
                  status := .errored (.tooLarge (toJSON s)) },
         (chunks.take k).map Ev.data ++ [Ev.fault (.tooLarge (toJSON s))]) := by
  intro chunks
  induction chunks with
  | nil =>
    intro k s _ hk
    simp at hk
  | cons c cs ih =>
    intro k s hst hk hwithin hover
    obtain ⟨ctr, ct, ce, cl, sz, lim, tmo, itv, tmr, pd, st⟩ := s
    simp only at hst hwithin hover ⊢
    subst hst
    cases k with
    | zero =>
      simp only [List.take, List.sum_cons, List.sum_nil, Nat.add_zero] at hover
      simp only [consume, hover, if_pos]
      simp [toJSON]
    | succ k' =>
      simp only [List.take, List.sum_cons] at hwithin hover
      have hnot : sizeExceeds (sz + c) lim = false :=
        sizeExceeds_mono (by omega) hwithin
      have ih' := ih k' ⟨ctr, ct, ce, cl, sz + c, lim, tmo, itv, tmr, pd, .opened⟩
        rfl (by simpa using hk)
        (by simpa [Nat.add_assoc] using hwithin)
        (by simpa [Nat.add_assoc] using hover)
      simp only [consume, hnot, Bool.false_eq_true, if_false, if_pos] at ih' ⊢
      simp [ih', Nat.add_assoc, toJSON]

/-! ### Claims -/

/-- C1 (amended): for every open stream and chunk sequence whose running
prefix sum of byte lengths first exceeds the stream's limit at chunk `k`,
consuming the chunks raises the `TooLarge` size-violation fault exactly once
(at chunk `k`), processes no chunk after `k`, and the fault carries the
stream's metadata descriptor — `contentType`, `contentEncoding`, and the
declared `contentLength` when known.  (The descriptor does not include the
observed size; see the counterexample.) -/
theorem claim_C1 (s : StreamState) (hst : s.status = .opened)
    (chunks : List Nat) (k : Nat) (hk : k < chunks.length)
    (hwithin : sizeExceeds (s.size + (chunks.take k).sum) s.limit = false)
    (hover : sizeExceeds (s.size + (chunks.take (k + 1)).sum) s.limit = true) :
    consume s chunks =
      ({ s with size := s.size + (chunks.take (k + 1)).sum,
                status := .errored (.tooLarge (toJSON s)) },
       (chunks.take k).map Ev.data ++ [Ev.fault (.tooLarge (toJSON s))]) :=
  consume_firstExceed chunks k s hst hk hwithin hover

/-- Stream used by the C1 counterexample and witness: limit 10 bytes,
timeout disabled. -/
def c1exProps : Props :=
  { contentType := some "application/octet-stream"
    contentEncoding := some "identity"
    limit := some (.num 10)
    timeout := some (.num 0) }

/-- The stream constructed from `c1exProps`. -/
def c1exStream : StreamState :=
  match construct c1exProps with
  | .ok s => s
  | .error _ => default

/-- C1 counterexample: the `TooLarge` fault does not carry `observedSize`.
Two runs of the same stream that fail with different observed sizes (11
versus 12 bytes) surface the very same fault, whose metadata holds only
`contentType` and `contentEncoding` (`contentLength` was not declared). -/
theorem claim_C1_counterexample :
    construct c1exProps = .ok c1exStream ∧
    (consume c1exStream [11]).2 =
      [Ev.fault (Fault.tooLarge
        { contentType := "application/octet-stream"
          contentEncoding := "identity"
          contentLength := none })] ∧
    (consume c1exStream [12]).2 = (consume c1exStream [11]).2 ∧
    (consume c1exStream [11]).1.size = 11 ∧
    (consume c1exStream [12]).1.size = 12 := by
  decide

/-- C1 witness: chunks of 4, 4 and 4 bytes against a 10-byte limit first
exceed the limit at chunk 2; the first two chunks pass and the third raises
the fault. -/
theorem claim_C1_witness :
    c1exStream.status = .opened ∧
    (2 : Nat) < ([4, 4, 4] : List Nat).length ∧
    sizeExceeds (c1exStream.size + (([4, 4, 4] : List Nat).take 2).sum)
      c1exStream.limit = false ∧
    sizeExceeds (c1exStream.size + (([4, 4, 4] : List Nat).take 3).sum)
      c1exStream.limit = true ∧
    consume c1exStream [4, 4, 4] =
      ({ c1exStream with
          size := c1exStream.size + (([4, 4, 4] : List Nat).take 3).sum,
          status := .errored (.tooLarge (toJSON c1exStream)) },
       (([4, 4, 4] : List Nat).take 2).map Ev.data ++
         [Ev.fault (.tooLarge (toJSON c1exStream))]) :=
  ⟨by decide, by decide, by decide, by decide,
   claim_C1 c1exStream (by decide) [4, 4, 4] 2 (by decide) (by decide)
     (by decide)⟩

/-- C2 (amended): for every validly constructed stream whose declared length
does not exceed its limit (no scheduled immediate destroy) and every chunk
sequence whose total byte length is within the limit, consuming all chunks
and signaling end-of-input flushes the stream, leaves `size` equal to the
exact sum of the chunk byte lengths, and backfills `contentLength` from the
observed size when it was absent at construction. -/
theorem claim_C2 (props : Props) (s : StreamState)
    (h : construct props = .ok s) (hpd : s.pendingDestroy = none)
    (chunks : List Nat)
    (hsum : sizeExceeds chunks.sum s.limit = false) :
    runStreamTrace props chunks =
      .ok ({ s with
             status := .flushed
             size := chunks.sum
             contentLength :=
               match s.contentLength with
               | none => some (.num (chunks.sum : Int))
               | some v => some v },
           chunks.map Ev.data) := by
  obtain ⟨hval, hb⟩ := construct_eq_ok.mp h
  obtain ⟨hraw, hct, hce, hcl, hsz, hlim, htm, hit, hst⟩ :=
    buildState_ok_fields hb
  have hcw := consume_within chunks s hst
    (by rw [hsz, Nat.zero_add, hlim]; rw [hlim] at hsum; exact hsum)
  unfold runStreamTrace
  rw [h]
  simp only [hpd, hcw]
  obtain ⟨ctr, ct, ce, cl, sz, lim, tmo, itv, tmr, pd, st⟩ := s
  simp only at hsz hst
  subst hsz hst
  simp [finish, flushStream]

/-- Stream used by the C2 counterexample: the declared length 100000 exceeds
the default 64 KiB limit for `application/json`, so the constructor succeeds
but schedules an immediate destroy. -/
def c2cexProps : Props :=
  { contentType := some "application/json"
    contentEncoding := some "identity"
    contentLength := some (.num 100000) }

/-- The stream constructed from `c2cexProps`. -/
def c2cexStream : StreamState :=
  match construct c2cexProps with
  | .ok s => s
  | .error _ => default

/-- C2 counterexample: a validly constructed stream (the constructor
returns without throwing) fed the empty chunk sequence — total byte length
0, within the limit — ends Errored with the scheduled `TooLarge` fault, not
Flushed. -/
theorem claim_C2_counterexample :
    construct c2cexProps = .ok c2cexStream ∧
    sizeExceeds (List.sum []) c2cexStream.limit = false ∧
    runStreamTrace c2cexProps [] =
      .ok ({ c2cexStream with
             status := .errored (.tooLarge (toJSON c2cexStream)) }, []) ∧
    Status.errored (.tooLarge (toJSON c2cexStream)) ≠ Status.flushed := by
  decide

/-- Stream used by the C2 witness: no declared length, timeout disabled. -/
def c2wProps : Props :=
  { contentType := some "application/json"
    contentEncoding := some "identity"
    timeout := some (.num 0) }

/-- The stream constructed from `c2wProps`. -/
def c2wStream : StreamState :=
  match construct c2wProps with
  | .ok s => s
  | .error _ => default

/-- C2 witness: chunks of 3 and 4 bytes within the 64 KiB limit flush with
`size = 7` and a backfilled `contentLength` of 7. -/
theorem claim_C2_witness :
    construct c2wProps = .ok c2wStream ∧
    c2wStream.pendingDestroy = none ∧
    sizeExceeds ([3, 4] : List Nat).sum c2wStream.limit = false ∧
    runStreamTrace c2wProps [3, 4] =
      .ok ({ c2wStream with
             status := .flushed
             size := ([3, 4] : List Nat).sum
             contentLength :=
               match c2wStream.contentLength with
               | none => some (.num ((([3, 4] : List Nat).sum : Nat) : Int))
               | some v => some v },
           ([3, 4] : List Nat).map Ev.data) :=
  ⟨by decide, by decide, by decide,
   claim_C2 c2wProps c2wStream (by decide) (by decide) [3, 4] (by decide)⟩

/-- C3: `fromStream` with a source that is itself a `SmartStream` produces a
stream with `limit = Infinity`, `timeout = 0` and `interval = 0`, overriding
whatever bounding values the props supplied; with any other source the
supplied (or default) bounding parameters are kept — `fromStream` then
behaves exactly like `create`. -/
theorem claim_C3 :
    (∀ (props : Props) (s : StreamState),
        fromStream true props = .ok s →
        s.limit = .inf ∧ s.timeout = .num 0 ∧ s.interval = .num 0) ∧
    (∀ props : Props, fromStream false props = create props) := by
  constructor
  · intro props s h
    have h2 : create
        { mergeTypeDefaults props with
          limit := some .inf
          timeout := some (.num 0)
          interval := some (.num 0) } = .ok s := h
    obtain ⟨_, _, _, _, _, hlim, htm, hit, _⟩ :=
      buildState_ok_fields (construct_eq_ok.mp h2).2
    refine ⟨?_, ?_, ?_⟩
    · rw [hlim]; rfl
    · rw [htm]; rfl
    · rw [hit]; rfl
  · intro props
    rw [fromStream_false, create_eq]

/-- Props used by the C3 witness, carrying bounding values that must be
overridden when the source is a `SmartStream`. -/
def c3wProps : Props :=
  { contentType := some "image/jpeg"
    contentEncoding := some "gzip"
    limit := some (.num 5)
    timeout := some (.num 9999)
    interval := some (.num 7) }

/-- The stream built by `fromStream` from a `SmartStream` source. -/
def c3wStream : StreamState :=
  match fromStream true c3wProps with
  | .ok s => s
  | .error _ => default

/-- C3 witness: with a `SmartStream` source the supplied limit 5, timeout
9999 and interval 7 are all overridden. -/
theorem claim_C3_witness :
    fromStream true c3wProps = .ok c3wStream ∧
    (c3wStream.limit = .inf ∧ c3wStream.timeout = .num 0 ∧
      c3wStream.interval = .num 0) ∧
    fromStream false c3wProps = create c3wProps :=
  ⟨by decide, claim_C3.1 c3wProps c3wStream (by decide), claim_C3.2 c3wProps⟩

/-- Well-formedness of a stream state as established by the constructor: the
raw content type revalidates, and a stored `contentLength` is positive (the
`toJSON` round-trip contract). -/
def wfStream (s : StreamState) : Bool :=
  validContentTypeB s.contentTypeRaw &&
  (match s.contentLength with
   | none => true
   | some v => jsLt (.num 0) v)

/-- C4: `toContentEncoding(x)` on a stream already at encoding `x` returns
the identical instance (no new stream, no new timer); for any other valid
encoding it returns a new stream at encoding `x` built over the transcoding
chain the specification describes (decompress the current encoding when not
identity, compress to `x` when not identity), with bounding disabled:
unbounded limit, timeout 0, the no-op timer. -/
theorem claim_C4 (s : StreamState) (hwf : wfStream s = true) (x : String)
    (hx : validEncodingB x = true) :
    (s.contentEncoding = x → toContentEncoding s x = .same) ∧
    (s.contentEncoding ≠ x →
      ∃ t, toContentEncoding s x =
          .transcoded (specChain s.contentEncoding x) (.ok t) ∧
        t.contentEncoding = x ∧ t.limit = .inf ∧ t.timeout = .num 0 ∧
        t.timer = .noop ∧ t.pendingDestroy = none) := by
  have hwf' := hwf
  unfold wfStream at hwf'
  simp only [Bool.and_eq_true] at hwf'
  obtain ⟨hct, hcl⟩ := hwf'
  constructor
  · intro he
    unfold toContentEncoding
    rw [if_pos he]
  · intro hne
    simp only [toContentEncoding]
    rw [if_neg hne]
    have hchain :
        (if s.contentEncoding = "identity" then Chain.compress x .source
         else if x = "identity" then
           Chain.decompress s.contentEncoding .source
         else Chain.compress x
           (Chain.decompress s.contentEncoding .source)) =
          specChain s.contentEncoding x := by
      unfold specChain
      by_cases h1 : s.contentEncoding = "identity" <;>
        by_cases h2 : x = "identity"
      · exact absurd (h1.trans h2.symm) hne
      · simp [h1, h2]
      · simp [h1, h2]
      · simp [h1, h2]
    rw [hchain]
    have hcl3 : jsLe (toNum (toJSON s).contentLength) (.num 0) = false := by
      unfold toJSON
      cases hc : s.contentLength with
      | none => simp [toNum, jsLt, jsLe]
      | some v =>
        rw [hc] at hcl
        have hv : jsLt (.num 0) v = true := by simpa using hcl
        simp only [toNum, Option.getD, hv, if_pos]
        exact jsLe_zero_of_pos hv
    have hval : validationError
        { contentType := some (toJSON s).contentType
          contentEncoding := some x
          contentLength := (toJSON s).contentLength
          limit := some .inf
          timeout := some (.num 0)
          interval := some (.num 0) } = none := by
      unfold validationError
      have hraw : (toJSON s).contentType = s.contentTypeRaw := rfl
      rw [if_neg (by simp [hraw, hct]), if_neg (by simp [hx]),
        if_neg (by simp [hcl3]), if_neg (by simp [toNum, isNaNb, jsLe]),
        if_neg (by simp [toNum, jsLt])]
    rw [fromStream_false]
    have hm : mergeTypeDefaults
        { contentType := some (toJSON s).contentType
          contentEncoding := some x
          contentLength := (toJSON s).contentLength
          limit := some .inf
          timeout := some (.num 0)
          interval := some (.num 0) } =
        { contentType := some (toJSON s).contentType
          contentEncoding := some x
          contentLength := (toJSON s).contentLength
          limit := some .inf
          timeout := some (.num 0)
          interval := some (.num 0) } := by
      simp [mergeTypeDefaults]
    rw [hm]
    unfold construct
    rw [hval]
    rw [buildState_noop_branch
      (by rw [limitOf_inf rfl]; exact jsGt_inf_right _)
      (timeoutOf_zero rfl)]
    exact ⟨_, rfl, rfl, rfl, rfl, rfl, rfl⟩

/-- The stream transcoded by the C4 witness (gzip source). -/
def c4wStream : StreamState :=
  match construct
      { contentType := some "image/jpeg"
        contentEncoding := some "gzip"
        timeout := some (.num 0) } with
  | .ok s => s
  | .error _ => default

/-- C4 witness: transcoding a gzip stream to gzip returns the identical
instance; transcoding it to deflate builds the decompress-then-compress
chain and a new unbounded stream at deflate. -/
theorem claim_C4_witness :
    wfStream c4wStream = true ∧
    validEncodingB "gzip" = true ∧ validEncodingB "deflate" = true ∧
    toContentEncoding c4wStream "gzip" = .same ∧
    (∃ t, toContentEncoding c4wStream "deflate" =
        .transcoded (specChain c4wStream.contentEncoding "deflate") (.ok t) ∧
      t.contentEncoding = "deflate" ∧ t.limit = .inf ∧ t.timeout = .num 0 ∧
      t.timer = .noop ∧ t.pendingDestroy = none) :=
  ⟨by decide, by decide, by decide,
   (claim_C4 c4wStream (by decide) "gzip" (by decide)).1 (by decide),
   (claim_C4 c4wStream (by decide) "deflate" (by decide)).2 (by decide)⟩

/-- C5: when construction passes synchronous validation but the declared
content length exceeds the limit, the constructor returns without throwing,
the stream carries a scheduled immediate destroy with the `TooLarge` fault,
and the run ends Errored with that fault before any data event — whatever
chunks would have been fed. -/
theorem claim_C5 (props : Props)
    (hval : validationError props = none)
    (hover : jsGt (toNum (contentLengthOf props)) (limitOf props) = true)
    (chunks : List Nat) :
    ∃ s, construct props = .ok s ∧
      s.pendingDestroy = some (.tooLarge (toJSON s)) ∧
      runStreamTrace props chunks =
        .ok ({ s with status := .errored (.tooLarge (toJSON s)) }, []) := by
  have hb := buildState_destroy_branch hover
  have hcon : construct props =
      .ok { initState props with
            pendingDestroy := some (.tooLarge (toJSON (initState props))) } := by
    unfold construct
    rw [hval]
    exact hb
  refine ⟨_, hcon, rfl, ?_⟩
  unfold runStreamTrace
  rw [hcon]
  rfl

/-- Props used by the C5 witness: declared length 100000 against the default
64 KiB limit for a deserializable content type. -/
def c5wProps : Props :=
  { contentType := some "application/json"
    contentEncoding := some "identity"
    contentLength := some (.num 100000) }

/-- C5 witness: the oversized declared length passes synchronous validation
and the stream destroys itself with `TooLarge` before processing the 5-byte
chunk. -/
theorem claim_C5_witness :
    validationError c5wProps = none ∧
    jsGt (toNum (contentLengthOf c5wProps)) (limitOf c5wProps) = true ∧
    (∃ s, construct c5wProps = .ok s ∧
      s.pendingDestroy = some (.tooLarge (toJSON s)) ∧
      runStreamTrace c5wProps [5] =
        .ok ({ s with status := .errored (.tooLarge (toJSON s)) }, [])) :=
  ⟨by decide, by decide, claim_C5 c5wProps (by decide) (by decide) [5]⟩

/-- C7: construction fails synchronously — before any data flows — for a
content type not matching the type/subtype pattern, an encoding outside
`identity|gzip|deflate`, a supplied non-positive declared content length, a
supplied non-positive or NaN limit, and a supplied interval greater than the
supplied timeout. -/
theorem claim_C7 :
    (∀ props : Props,
        validContentTypeB (props.contentType.getD "undefined") = false →
        ∃ e, construct props = .error e) ∧
    (∀ props : Props,
        validEncodingB (props.contentEncoding.getD "undefined") = false →
        ∃ e, construct props = .error e) ∧
    (∀ (props : Props) (v : JSNum),
        props.contentLength = some v → jsLe v (.num 0) = true →
        ∃ e, construct props = .error e) ∧
    (∀ (props : Props) (v : JSNum),
        props.limit = some v → (isNaNb v || jsLe v (.num 0)) = true →
        ∃ e, construct props = .error e) ∧
    (∀ (props : Props) (t i : JSNum),
        props.timeout = some t → props.interval = some i → jsLt t i = true →
        ∃ e, construct props = .error e) := by
  refine ⟨?_, ?_, ?_, ?_, ?_⟩
  · intro props h
    apply construct_error_of_not_none
    intro hnone
    have h1 := (validationError_none hnone).1
    rw [h] at h1
    cases h1
  · intro props h
    apply construct_error_of_not_none
    intro hnone
    have h2 := (validationError_none hnone).2.1
    rw [h] at h2
    cases h2
  · intro props v hv h
    apply construct_error_of_not_none
    intro hnone
    have h3 := (validationError_none hnone).2.2.1
    rw [hv] at h3
    simp only [toNum, Option.getD] at h3
    rw [h] at h3
    cases h3
  · intro props v hv h
    apply construct_error_of_not_none
    intro hnone
    have h4 := (validationError_none hnone).2.2.2.1
    rw [hv] at h4
    simp only [toNum, Option.getD, Option.isSome, Bool.true_and] at h4
    rw [h] at h4
    cases h4
  · intro props t i ht hi h
    apply construct_error_of_not_none
    intro hnone
    have h5 := (validationError_none hnone).2.2.2.2
    rw [ht, hi] at h5
    simp only [toNum, Option.getD] at h5
    rw [h] at h5
    cases h5

/-- C7 witness inputs: a bad content type, a bad encoding, a non-positive
declared length, a NaN limit, and an interval above the timeout. -/
def c7aProps : Props :=
  { contentType := some "bogus", contentEncoding := some "identity" }

/-- C7 witness input with an unsupported encoding. -/
def c7bProps : Props :=
  { contentType := some "application/json", contentEncoding := some "br" }

/-- C7 witness input with a negative declared content length. -/
def c7cProps : Props :=
  { contentType := some "application/json"
    contentEncoding := some "identity"
    contentLength := some (.num (-1)) }

/-- C7 witness input with a NaN limit (e.g. `limit: 'foo'`). -/
def c7dProps : Props :=
  { contentType := some "application/json"
    contentEncoding := some "identity"
    limit := some .nan }

/-- C7 witness input whose interval 1001 exceeds its timeout 1000. -/
def c7eProps : Props :=
  { contentType := some "application/json"
    contentEncoding := some "identity"
    timeout := some (.num 1000)
    interval := some (.num 1001) }

/-- C7 witness: each of the five malformed configurations throws
synchronously. -/
theorem claim_C7_witness :
    (∃ e, construct c7aProps = .error e) ∧
    (∃ e, construct c7bProps = .error e) ∧
    (∃ e, construct c7cProps = .error e) ∧
    (∃ e, construct c7dProps = .error e) ∧
    (∃ e, construct c7eProps = .error e) :=
  ⟨claim_C7.1 c7aProps (by decide),
   claim_C7.2.1 c7bProps (by decide),
   claim_C7.2.2.1 c7cProps (.num (-1)) (by decide) (by decide),
   claim_C7.2.2.2.1 c7dProps .nan (by decide) (by decide),
   claim_C7.2.2.2.2 c7eProps (.num 1000) (.num 1001) (by decide) (by decide)
     (by decide)⟩

/-- C8: a stream constructed with `timeout = 0` has stall detection
disabled: its timer slot never holds a live `SmartTimer` — so no `TimedOut`
fault can ever fire, however long the stream stays idle — and whenever the
stream is not scheduled for immediate destruction the slot holds the no-op
pass-through object. -/
theorem claim_C8 (props : Props) (s : StreamState)
    (h : construct props = .ok s) (ht : props.timeout = some (.num 0)) :
    (∀ elapsed : Nat, idleFault s elapsed = none) ∧
    (s.pendingDestroy = none → s.timer = .noop) := by
  have hb := (construct_eq_ok.mp h).2
  have hpd := buildState_pendingDestroy hb
  have htm : timeoutOf props = .num 0 := timeoutOf_zero ht
  constructor
  · intro elapsed
    cases hgt : jsGt (toNum (contentLengthOf props)) (limitOf props) with
    | true =>
      have := (hpd.1 hgt).2
      simp [idleFault, this]
    | false =>
      have := (hpd.2 hgt).2 htm
      simp [idleFault, this]
  · intro hpdnone
    cases hgt : jsGt (toNum (contentLengthOf props)) (limitOf props) with
    | true =>
      have := (hpd.1 hgt).1
      rw [this] at hpdnone
      cases hpdnone
    | false => exact (hpd.2 hgt).2 htm

/-- Props used by the C8 witness: `timeout: 0`. -/
def c8wProps : Props :=
  { contentType := some "application/json"
    contentEncoding := some "identity"
    timeout := some (.num 0) }

/-- The stream constructed from `c8wProps`. -/
def c8wStream : StreamState :=
  match construct c8wProps with
  | .ok s => s
  | .error _ => default

/-- C8 witness: with `timeout = 0` no `TimedOut` fault fires even after
999999999 ms of inactivity, and the timer slot holds the no-op object. -/
theorem claim_C8_witness :
    construct c8wProps = .ok c8wStream ∧
    c8wProps.timeout = some (.num 0) ∧
    idleFault c8wStream 999999999 = none ∧
    c8wStream.timer = .noop :=
  ⟨by decide, by decide,
   (claim_C8 c8wProps c8wStream (by decide) (by decide)).1 999999999,
   (claim_C8 c8wProps c8wStream (by decide) (by decide)).2 (by decide)⟩

/-- C9: `fromBuffer` overrides both `contentLength` and `limit` with the
buffer's byte length; consequently the empty buffer always fails
construction synchronously — with an invalid-content-length fault whenever
the merged content type and encoding are themselves valid — so no stream is
ever created from an empty buffer. -/
theorem claim_C9 :
    (∀ (buf : List Nat) (props : Props) (s : StreamState),
        fromBuffer buf props = .ok s →
        s.contentLength = some (.num (buf.length : Int)) ∧
        s.limit = .num (buf.length : Int)) ∧
    (∀ props : Props, ∃ e, fromBuffer [] props = .error e) ∧
    (∀ props : Props,
        validContentTypeB
          ((mergeTypeDefaults props).contentType.getD "undefined") = true →
        validEncodingB
          ((mergeTypeDefaults props).contentEncoding.getD "undefined") = true →
        fromBuffer [] props = .error .badContentLength) := by
  refine ⟨?_, ?_, ?_⟩
  · intro buf props s h
    rw [show fromBuffer buf props = construct (mergeTypeDefaults
        { mergeTypeDefaults props with
          contentLength := some (.num (buf.length : Int))
          limit := some (.num (buf.length : Int)) }) from rfl] at h
    obtain ⟨hval, hb⟩ := construct_eq_ok.mp h
    obtain ⟨_, _, _, hcl, _, hlim, _, _, _⟩ := buildState_ok_fields hb
    have h3 := (validationError_none hval).2.2.1
    simp only [mergeTypeDefaults, toNum, Option.getD, jsLe,
      decide_eq_false_iff_not, not_le] at h3
    have hposon : truthy (.num (buf.length : Int)) = true := by
      simp only [truthy, decide_eq_true_eq]
      omega
    constructor
    · rw [hcl]
      simp only [contentLengthOf, mergeTypeDefaults, toNum, Option.getD,
        hposon, if_pos]
    · rw [hlim]
      simp only [limitOf, mergeTypeDefaults, toNum, Option.getD,
        hposon, if_pos]
  · intro props
    apply construct_error_of_not_none
    intro hnone
    have h3 := (validationError_none hnone).2.2.1
    simp [mergeTypeDefaults, toNum, jsLe] at h3
  · intro props h1 h2
    apply construct_error_of_validation
    unfold validationError
    rw [if_neg (by simp [mergeTypeDefaults, Option.getD] at h1 ⊢; simp [h1]),
      if_neg (by simp [mergeTypeDefaults, Option.getD] at h2 ⊢; simp [h2]),
      if_pos (by simp [mergeTypeDefaults, toNum, jsLe])]

/-- C9 witness: a 3-byte buffer yields a stream with declared length and
limit both 3; the empty buffer throws (with the invalid-content-length fault
under the default props). -/
theorem claim_C9_witness :
    fromBuffer [7, 8, 9] {} =
      .ok (match fromBuffer [7, 8, 9] {} with
           | .ok s => s
           | .error _ => default) ∧
    ((match fromBuffer [7, 8, 9] {} with
      | .ok s => s
      | .error _ => default) : StreamState).contentLength =
        some (.num ((([7, 8, 9] : List Nat).length : Nat) : Int)) ∧
    (∃ e, fromBuffer [] {} = .error e) ∧
    fromBuffer [] {} = .error .badContentLength :=
  ⟨by decide,
   (claim_C9.1 [7, 8, 9] {} _ (by decide)).1,
   claim_C9.2.1 {},
   claim_C9.2.2 {} (by decide) (by decide)⟩

/-! ### Supporting lemmas about the serializer layer -/

theorem char_toNat_valid (c : Char) :
    c.toNat < 0xd800 ∨ (0xe000 ≤ c.toNat ∧ c.toNat < 0x110000) := by
  have h := c.valid
  simp only [UInt32.isValidChar, Nat.isValidChar] at h
  rcases h with h | h
  · exact Or.inl h
  · exact Or.inr h

theorem utf8DecodeChar_cons (b0 : Nat) (bs : List Nat) :
    utf8DecodeChar (b0 :: bs) =
      (if b0 < 0x80 then some (Char.ofNat b0, bs)
      else if b0 < 0xc0 then none
      else if b0 < 0xe0 then
        match bs with
        | b1 :: r =>
          if 0x80 ≤ b1 && b1 < 0xc0 then
            let v := (b0 - 0xc0) * 64 + (b1 - 0x80)
            if 0x80 ≤ v then some (Char.ofNat v, r) else none
          else none
        | [] => none
      else if b0 < 0xf0 then
        match bs with
        | b1 :: b2 :: r =>
          if (0x80 ≤ b1 && b1 < 0xc0) && (0x80 ≤ b2 && b2 < 0xc0) then
            let v := (b0 - 0xe0) * 4096 + (b1 - 0x80) * 64 + (b2 - 0x80)
            if 0x800 ≤ v && !(0xd800 ≤ v && v < 0xe000) then
              some (Char.ofNat v, r)
            else none
          else none
        | _ => none
      else if b0 < 0xf8 then
        match bs with
        | b1 :: b2 :: b3 :: r =>
          if (0x80 ≤ b1 && b1 < 0xc0) && (0x80 ≤ b2 && b2 < 0xc0) &&
              (0x80 ≤ b3 && b3 < 0xc0) then
            let v := (b0 - 0xf0) * 262144 + (b1 - 0x80) * 4096 +
              (b2 - 0x80) * 64 + (b3 - 0x80)
            if 0x10000 ≤ v && v < 0x110000 then some (Char.ofNat v, r) else none
          else none
        | _ => none
      else none) := rfl

theorem utf8DecodeChar_cons2 (b0 b1 : Nat) (r : List Nat)
    (h0 : ¬b0 < 0x80) (h0b : ¬b0 < 0xc0) (h1 : b0 < 0xe0) :
    utf8DecodeChar (b0 :: b1 :: r) =
      (if 0x80 ≤ b1 && b1 < 0xc0 then
        if 0x80 ≤ (b0 - 0xc0) * 64 + (b1 - 0x80) then
          some (Char.ofNat ((b0 - 0xc0) * 64 + (b1 - 0x80)), r)
        else none
      else none) := by
  rw [utf8DecodeChar_cons, if_neg h0, if_neg h0b, if_pos h1]

theorem utf8DecodeChar_cons3 (b0 b1 b2 : Nat) (r : List Nat)
    (h0 : ¬b0 < 0x80) (h0b : ¬b0 < 0xc0) (h0c : ¬b0 < 0xe0) (h1 : b0 < 0xf0) :
    utf8DecodeChar (b0 :: b1 :: b2 :: r) =
      (if (0x80 ≤ b1 && b1 < 0xc0) && (0x80 ≤ b2 && b2 < 0xc0) then
        if 0x800 ≤ (b0 - 0xe0) * 4096 + (b1 - 0x80) * 64 + (b2 - 0x80) &&
            !(0xd800 ≤ (b0 - 0xe0) * 4096 + (b1 - 0x80) * 64 + (b2 - 0x80) &&
              (b0 - 0xe0) * 4096 + (b1 - 0x80) * 64 + (b2 - 0x80) < 0xe000) then
          some (Char.ofNat ((b0 - 0xe0) * 4096 + (b1 - 0x80) * 64 + (b2 - 0x80)), r)
        else none
      else none) := by
  rw [utf8DecodeChar_cons, if_neg h0, if_neg h0b, if_neg h0c, if_pos h1]

theorem utf8DecodeChar_cons4 (b0 b1 b2 b3 : Nat) (r : List Nat)
    (h0 : ¬b0 < 0x80) (h0b : ¬b0 < 0xc0) (h0c : ¬b0 < 0xe0)
    (h0d : ¬b0 < 0xf0) (h1 : b0 < 0xf8) :
    utf8DecodeChar (b0 :: b1 :: b2 :: b3 :: r) =
      (if (0x80 ≤ b1 && b1 < 0xc0) && (0x80 ≤ b2 && b2 < 0xc0) &&
          (0x80 ≤ b3 && b3 < 0xc0) then
        if 0x10000 ≤ (b0 - 0xf0) * 262144 + (b1 - 0x80) * 4096 +
              (b2 - 0x80) * 64 + (b3 - 0x80) &&
            (b0 - 0xf0) * 262144 + (b1 - 0x80) * 4096 +
              (b2 - 0x80) * 64 + (b3 - 0x80) < 0x110000 then
          some (Char.ofNat ((b0 - 0xf0) * 262144 + (b1 - 0x80) * 4096 +
            (b2 - 0x80) * 64 + (b3 - 0x80)), r)
        else none
      else none) := by
  rw [utf8DecodeChar_cons, if_neg h0, if_neg h0b, if_neg h0c, if_neg h0d,
    if_pos h1]

theorem utf8DecodeChar_encodeChar (c : Char) (rest : List Nat) :
    utf8DecodeChar (utf8EncodeChar c ++ rest) = some (c, rest) := by
  have hval := char_toNat_valid c
  by_cases h1 : c.toNat < 0x80
  · simp only [utf8EncodeChar, h1, if_pos, List.cons_append, List.nil_append]
    rw [utf8DecodeChar_cons, if_pos h1, Char.ofNat_toNat]
  · by_cases h2 : c.toNat < 0x800
    · simp only [utf8EncodeChar, h1, Bool.false_eq_true, if_false, h2,
        if_pos, List.cons_append, List.nil_append]
      rw [utf8DecodeChar_cons2 _ _ _ (by omega) (by omega) (by omega)]
      rw [if_pos (by simp only [Bool.and_eq_true, decide_eq_true_eq]; omega)]
      rw [if_pos (by omega)]
      have harith : (0xc0 + c.toNat / 64 - 0xc0) * 64 +
          (0x80 + c.toNat % 64 - 0x80) = c.toNat := by omega
      rw [harith, Char.ofNat_toNat]
    · by_cases h3 : c.toNat < 0x10000
      · simp only [utf8EncodeChar, h1, h2, Bool.false_eq_true, if_false, h3,
          if_pos, List.cons_append, List.nil_append]
        rw [utf8DecodeChar_cons3 _ _ _ _ (by omega) (by omega) (by omega)
          (by omega)]
        have harith : (0xe0 + c.toNat / 4096 - 0xe0) * 4096 +
            (0x80 + c.toNat / 64 % 64 - 0x80) * 64 +
            (0x80 + c.toNat % 64 - 0x80) = c.toNat := by omega
        rw [harith]
        rw [if_pos (by simp only [Bool.and_eq_true, decide_eq_true_eq]; omega)]
        rw [if_pos (by simp; omega)]
        rw [Char.ofNat_toNat]
      · simp only [utf8EncodeChar, h1, h2, h3, Bool.false_eq_true, if_false,
          List.cons_append, List.nil_append]
        rw [utf8DecodeChar_cons4 _ _ _ _ _ (by omega) (by omega) (by omega)
          (by omega) (by omega)]
        have harith : (0xf0 + c.toNat / 262144 - 0xf0) * 262144 +
            (0x80 + c.toNat / 4096 % 64 - 0x80) * 4096 +
            (0x80 + c.toNat / 64 % 64 - 0x80) * 64 +
            (0x80 + c.toNat % 64 - 0x80) = c.toNat := by omega
        rw [harith]
        rw [if_pos (by simp only [Bool.and_eq_true, decide_eq_true_eq]; omega)]
        rw [if_pos (by simp only [Bool.and_eq_true, decide_eq_true_eq]; omega)]
        rw [Char.ofNat_toNat]

theorem utf8EncodeChar_length_pos (c : Char) :
    0 < (utf8EncodeChar c).length := by
  simp only [utf8EncodeChar]
  split
  · simp
  · split
    · simp
    · split <;> simp

theorem utf8Encode_append (a b : List Char) :
    utf8Encode (a ++ b) = utf8Encode a ++ utf8Encode b := by
  induction a with
  | nil => rfl
  | cons c cs ih => simp [utf8Encode, ih]

theorem utf8DecodeAux_encode :
    ∀ (cs : List Char) (fuel : Nat),
      (utf8Encode cs).length ≤ fuel →
      utf8DecodeAux fuel (utf8Encode cs) = some cs := by
  intro cs
  induction cs with
  | nil =>
    intro fuel _
    cases fuel <;> rfl
  | cons c cs ih =>
    intro fuel hfuel
    have hlen := utf8EncodeChar_length_pos c
    have henc : utf8Encode (c :: cs) = utf8EncodeChar c ++ utf8Encode cs := rfl
    rw [henc] at hfuel ⊢
    have hne : utf8EncodeChar c ++ utf8Encode cs ≠ [] := by
      intro hcontra
      rw [List.append_eq_nil] at hcontra
      have := hcontra.1
      simp [this] at hlen
    cases fuel with
    | zero =>
      exfalso
      rw [List.length_append] at hfuel
      omega
    | succ fuel' =>
      have hstep : utf8DecodeAux (fuel' + 1) (utf8EncodeChar c ++ utf8Encode cs) =
          match utf8DecodeChar (utf8EncodeChar c ++ utf8Encode cs) with
          | none => none
          | some (d, rest) => (utf8DecodeAux fuel' rest).map (fun ds => d :: ds) := by
        cases hl : utf8EncodeChar c ++ utf8Encode cs with
        | nil => exact absurd hl hne
        | cons b bs => rfl
      rw [hstep, utf8DecodeChar_encodeChar]
      show (utf8DecodeAux fuel' (utf8Encode cs)).map (fun ds => c :: ds) =
        some (c :: cs)
      rw [ih fuel' (by rw [List.length_append] at hfuel; omega)]
      rfl

theorem bufToString_utf8Encode (cs : List Char) :
    bufToString (utf8Encode cs) = some (String.mk cs) := by
  unfold bufToString
  rw [utf8DecodeAux_encode cs (utf8Encode cs).length (le_refl _)]
  rfl

theorem bufToString_bufFromString (s : String) :
    bufToString (bufFromString s) = some s := by
  unfold bufFromString
  rw [bufToString_utf8Encode]

theorem utf8EncodeChar_lt_256 (c : Char) :
    ∀ b ∈ utf8EncodeChar c, b < 256 := by
  have hval := char_toNat_valid c
  intro b hb
  by_cases h1 : c.toNat < 0x80
  · simp only [utf8EncodeChar, h1, if_pos] at hb
    simp at hb
    omega
  · by_cases h2 : c.toNat < 0x800
    · simp only [utf8EncodeChar, h1, Bool.false_eq_true, if_false, h2,
        if_pos] at hb
      simp at hb
      rcases hb with h | h <;> omega
    · by_cases h3 : c.toNat < 0x10000
      · simp only [utf8EncodeChar, h1, h2, Bool.false_eq_true, if_false, h3,
          if_pos] at hb
        simp at hb
        rcases hb with h | h | h <;> omega
      · simp only [utf8EncodeChar, h1, h2, h3, Bool.false_eq_true,
          if_false] at hb
        simp at hb
        rcases hb with h | h | h | h <;> omega

theorem utf8Encode_lt_256 (cs : List Char) :
    ∀ b ∈ utf8Encode cs, b < 256 := by
  induction cs with
  | nil => intro b hb; cases hb
  | cons c cs ih =>
    intro b hb
    rw [show utf8Encode (c :: cs) = utf8EncodeChar c ++ utf8Encode cs from rfl,
      List.mem_append] at hb
    rcases hb with h | h
    · exact utf8EncodeChar_lt_256 c b h
    · exact ih b h

theorem hexVal_hexDigitChar : ∀ n < 16, hexVal (hexDigitChar n) = some n := by
  decide

theorem jsonEscapeChar_length_pos (c : Char) :
    0 < (jsonEscapeChar c).length := by
  unfold jsonEscapeChar
  repeat' split
  all_goals simp

theorem jsonEscapeList_length_ge (s : List Char) :
    s.length ≤ (jsonEscapeList s).length := by
  induction s with
  | nil => simp [jsonEscapeList]
  | cons c cs ih =>
    have := jsonEscapeChar_length_pos c
    simp only [jsonEscapeList, List.length_append, List.length_cons]
    omega

theorem jsonParseStringBody_consStep (f : Nat) (c : Char) (bs : List Char) :
    jsonParseStringBody (f + 1) (c :: bs) =
      (if c = '"' then some ([], bs)
       else if c = '\\' then
         match bs with
         | [] => none
         | e :: rest' =>
           if e = '"' then
             (jsonParseStringBody f rest').map (fun p => ('"' :: p.1, p.2))
           else if e = '\\' then
             (jsonParseStringBody f rest').map (fun p => ('\\' :: p.1, p.2))
           else if e = 'b' then
             (jsonParseStringBody f rest').map
               (fun p => (Char.ofNat 8 :: p.1, p.2))
           else if e = 't' then
             (jsonParseStringBody f rest').map
               (fun p => (Char.ofNat 9 :: p.1, p.2))
           else if e = 'n' then
             (jsonParseStringBody f rest').map
               (fun p => (Char.ofNat 10 :: p.1, p.2))
           else if e = 'f' then
             (jsonParseStringBody f rest').map
               (fun p => (Char.ofNat 12 :: p.1, p.2))
           else if e = 'r' then
             (jsonParseStringBody f rest').map
               (fun p => (Char.ofNat 13 :: p.1, p.2))
           else if e = '/' then
             (jsonParseStringBody f rest').map (fun p => ('/' :: p.1, p.2))
           else if e = 'u' then
             match rest' with
             | h1 :: h2 :: h3 :: h4 :: rest2 =>
               match hexVal h1, hexVal h2, hexVal h3, hexVal h4 with
               | some a, some b, some c2, some d =>
                 let v := a * 4096 + b * 256 + c2 * 16 + d
                 if v < 0xd800 || 0xe000 ≤ v then
                   (jsonParseStringBody f rest2).map
                     (fun p => (Char.ofNat v :: p.1, p.2))
                 else none
               | _, _, _, _ => none
             | _ => none
           else none
       else (jsonParseStringBody f bs).map (fun p => (c :: p.1, p.2))) := rfl

theorem jsonParseStringBody_escStep (f : Nat) (e : Char) (bs : List Char) :
    jsonParseStringBody (f + 1) ('\\' :: e :: bs) =
      (if e = '"' then
        (jsonParseStringBody f bs).map (fun p => ('"' :: p.1, p.2))
      else if e = '\\' then
        (jsonParseStringBody f bs).map (fun p => ('\\' :: p.1, p.2))
      else if e = 'b' then
        (jsonParseStringBody f bs).map (fun p => (Char.ofNat 8 :: p.1, p.2))
      else if e = 't' then
        (jsonParseStringBody f bs).map (fun p => (Char.ofNat 9 :: p.1, p.2))
      else if e = 'n' then
        (jsonParseStringBody f bs).map (fun p => (Char.ofNat 10 :: p.1, p.2))
      else if e = 'f' then
        (jsonParseStringBody f bs).map (fun p => (Char.ofNat 12 :: p.1, p.2))
      else if e = 'r' then
        (jsonParseStringBody f bs).map (fun p => (Char.ofNat 13 :: p.1, p.2))
      else if e = '/' then
        (jsonParseStringBody f bs).map (fun p => ('/' :: p.1, p.2))
      else if e = 'u' then
        match bs with
        | h1 :: h2 :: h3 :: h4 :: rest2 =>
          match hexVal h1, hexVal h2, hexVal h3, hexVal h4 with
          | some a, some b, some c2, some d =>
            let v := a * 4096 + b * 256 + c2 * 16 + d
            if v < 0xd800 || 0xe000 ≤ v then
              (jsonParseStringBody f rest2).map
                (fun p => (Char.ofNat v :: p.1, p.2))
            else none
          | _, _, _, _ => none
        | _ => none
      else none) := rfl

theorem jsonParseStringBody_plain (f : Nat) (c : Char) (bs : List Char)
    (h1 : ¬c = '"') (h2 : ¬c = '\\') :
    jsonParseStringBody (f + 1) (c :: bs) =
      (jsonParseStringBody f bs).map (fun p => (c :: p.1, p.2)) := by
  rw [jsonParseStringBody_consStep, if_neg h1, if_neg h2]

theorem jsonParseStringBody_escape :
    ∀ (s : List Char) (fuel : Nat) (rest : List Char),
      s.length < fuel →
      jsonParseStringBody fuel (jsonEscapeList s ++ '"' :: rest) =
        some (s, rest) := by
  intro s
  induction s with
  | nil =>
    intro fuel rest hf
    cases fuel with
    | zero => omega
    | succ f =>
      show jsonParseStringBody (f + 1) ('"' :: rest) = some ([], rest)
      rw [jsonParseStringBody_consStep, if_pos rfl]
  | cons c cs ih =>
    intro fuel rest hf
    cases fuel with
    | zero => simp at hf
    | succ f =>
      have hcs : cs.length < f := by
        simp only [List.length_cons] at hf
        omega
      have hrec := ih f rest hcs
      by_cases h1 : c = '"'
      · subst h1
        show jsonParseStringBody (f + 1)
          ('\\' :: '"' :: (jsonEscapeList cs ++ '"' :: rest)) = _
        rw [jsonParseStringBody_escStep, if_pos rfl, hrec]
        rfl
      · by_cases h2 : c = '\\'
        · subst h2
          show jsonParseStringBody (f + 1)
            ('\\' :: '\\' :: (jsonEscapeList cs ++ '"' :: rest)) = _
          rw [jsonParseStringBody_escStep, if_neg (by decide), if_pos rfl,
            hrec]
          rfl
        · by_cases h3 : c = Char.ofNat 8
          · subst h3
            show jsonParseStringBody (f + 1)
              ('\\' :: 'b' :: (jsonEscapeList cs ++ '"' :: rest)) = _
            rw [jsonParseStringBody_escStep, if_neg (by decide),
              if_neg (by decide), if_pos rfl, hrec]
            rfl
          · by_cases h4 : c = Char.ofNat 9
            · subst h4
              show jsonParseStringBody (f + 1)
                ('\\' :: 't' :: (jsonEscapeList cs ++ '"' :: rest)) = _
              rw [jsonParseStringBody_escStep, if_neg (by decide),
                if_neg (by decide), if_neg (by decide), if_pos rfl, hrec]
              rfl
            · by_cases h5 : c = Char.ofNat 10
              · subst h5
                show jsonParseStringBody (f + 1)
                  ('\\' :: 'n' :: (jsonEscapeList cs ++ '"' :: rest)) = _
                rw [jsonParseStringBody_escStep, if_neg (by decide),
                  if_neg (by decide), if_neg (by decide), if_neg (by decide),
                  if_pos rfl, hrec]
                rfl
              · by_cases h6 : c = Char.ofNat 12
                · subst h6
                  show jsonParseStringBody (f + 1)
                    ('\\' :: 'f' :: (jsonEscapeList cs ++ '"' :: rest)) = _
                  rw [jsonParseStringBody_escStep, if_neg (by decide),
                    if_neg (by decide), if_neg (by decide),
                    if_neg (by decide), if_neg (by decide), if_pos rfl, hrec]
                  rfl
                · by_cases h7 : c = Char.ofNat 13
                  · subst h7
                    show jsonParseStringBody (f + 1)
                      ('\\' :: 'r' :: (jsonEscapeList cs ++ '"' :: rest)) = _
                    rw [jsonParseStringBody_escStep, if_neg (by decide),
                      if_neg (by decide), if_neg (by decide),
                      if_neg (by decide), if_neg (by decide),
                      if_neg (by decide), if_pos rfl, hrec]
                    rfl
                  · by_cases h8 : c.toNat < 0x20
                    · have hesc : jsonEscapeChar c =
                          ['\\', 'u', '0', '0', hexDigitChar (c.toNat / 16),
                            hexDigitChar (c.toNat % 16)] := by
                        unfold jsonEscapeChar
                        rw [if_neg h1, if_neg h2, if_neg h3, if_neg h4,
                          if_neg h5, if_neg h6, if_neg h7, if_pos h8]
                      rw [show jsonEscapeList (c :: cs) ++ '"' :: rest =
                          jsonEscapeChar c ++ (jsonEscapeList cs ++ '"' :: rest) by
                        simp [jsonEscapeList, List.append_assoc]]
                      rw [hesc]
                      simp only [List.cons_append, List.nil_append]
                      rw [jsonParseStringBody_escStep, if_neg (by decide),
                        if_neg (by decide), if_neg (by decide),
                        if_neg (by decide), if_neg (by decide),
                        if_neg (by decide), if_neg (by decide),
                        if_neg (by decide), if_pos rfl]
                      simp only []
                      rw [show hexVal '0' = some 0 from rfl,
                        hexVal_hexDigitChar (c.toNat / 16) (by omega),
                        hexVal_hexDigitChar (c.toNat % 16) (by omega)]
                      simp only []
                      have harith : (0 : Nat) * 4096 + 0 * 256 +
                          c.toNat / 16 * 16 + c.toNat % 16 = c.toNat := by
                        omega
                      rw [harith]
                      rw [if_pos (by
                        simp only [Bool.or_eq_true, decide_eq_true_eq]
                        omega)]
                      rw [Char.ofNat_toNat, hrec]
                      rfl
                    · have hesc : jsonEscapeChar c = [c] := by
                        unfold jsonEscapeChar
                        rw [if_neg h1, if_neg h2, if_neg h3, if_neg h4,
                          if_neg h5, if_neg h6, if_neg h7, if_neg h8]
                      rw [show jsonEscapeList (c :: cs) ++ '"' :: rest =
                          jsonEscapeChar c ++ (jsonEscapeList cs ++ '"' :: rest) by
                        simp [jsonEscapeList, List.append_assoc]]
                      rw [hesc]
                      simp only [List.cons_append, List.nil_append]
                      rw [jsonParseStringBody_plain f c _ h1 h2, hrec]
                      rfl

theorem string_mk_data (s : String) : String.mk s.data = s := rfl

theorem jsonQuote_length (s : String) :
    (jsonQuote s).length = (jsonEscapeList s.data).length + 2 := by
  simp [jsonQuote]

theorem jsonParsePair_quote (fuel : Nat) (bs : List Char) :
    jsonParsePair fuel ('"' :: bs) =
      (match jsonParseStringBody fuel bs with
       | some (k, rest1) =>
         match rest1 with
         | ':' :: '"' :: rest2 =>
           match jsonParseStringBody fuel rest2 with
           | some (v, rest3) => some ((String.mk k, String.mk v), rest3)
           | none => none
         | _ => none
       | none => none) := rfl

theorem jsonParsePairs_succ (f : Nat) (cs : List Char) :
    jsonParsePairs (f + 1) cs =
      (match jsonParsePair (f + 1) cs with
       | none => none
       | some (kv, rest) =>
         match rest with
         | [] => none
         | c :: rest' =>
           if c = ',' then
             (jsonParsePairs f rest').map (fun p => (kv :: p.1, p.2))
           else if c = Char.ofNat 125 then some ([kv], rest')
           else none) := rfl

theorem jsonParseValue_cons (fuel : Nat) (c : Char) (rest : List Char) :
    jsonParseValue fuel (c :: rest) =
      (if c = 'n' then
        match rest with
        | 'u' :: 'l' :: 'l' :: rest2 => some (.rnull, rest2)
        | _ => none
      else if c = '"' then
        (jsonParseStringBody fuel rest).map
          (fun p => (.rstr (String.mk p.1), p.2))
      else if c = Char.ofNat 123 then
        match rest with
        | d :: rest2 =>
          if d = Char.ofNat 125 then some (.rmap [], rest2)
          else (jsonParsePairs fuel rest).map (fun p => (.rmap p.1, p.2))
        | [] => none
      else none) := rfl

theorem jsonParseValue_quote (fuel : Nat) (bs : List Char) :
    jsonParseValue fuel ('"' :: bs) =
      (jsonParseStringBody fuel bs).map
        (fun p => (RepValue.rstr (String.mk p.1), p.2)) := by
  rw [jsonParseValue_cons, if_neg (by decide), if_pos rfl]

theorem jsonParseValue_brace_cons (fuel : Nat) (d : Char) (rest2 : List Char) :
    jsonParseValue fuel (Char.ofNat 123 :: d :: rest2) =
      (if d = Char.ofNat 125 then some (.rmap [], rest2)
       else (jsonParsePairs fuel (d :: rest2)).map
         (fun p => (.rmap p.1, p.2))) := by
  rw [jsonParseValue_cons, if_neg (by decide), if_neg (by decide),
    if_pos rfl]

theorem jsonParsePairs_stringify :
    ∀ (kvs : List (String × String)) (fuel : Nat) (rest : List Char),
      kvs ≠ [] →
      (jsonStringifyPairs kvs).length < fuel →
      jsonParsePairs fuel
        (jsonStringifyPairs kvs ++ Char.ofNat 125 :: rest) =
        some (kvs, rest) := by
  intro kvs
  induction kvs with
  | nil => intro fuel rest hne; exact absurd rfl hne
  | cons kv ps ih =>
    intro fuel rest _ hf
    obtain ⟨k, v⟩ := kv
    have hkq := jsonEscapeList_length_ge k.data
    have hvq := jsonEscapeList_length_ge v.data
    cases ps with
    | nil =>
      have hlen : (jsonStringifyPairs [(k, v)]).length =
          (jsonEscapeList k.data).length +
            (jsonEscapeList v.data).length + 5 := by
        simp [jsonStringifyPairs, jsonQuote]
        omega
      rw [hlen] at hf
      have hshape : jsonStringifyPairs [(k, v)] ++ Char.ofNat 125 :: rest =
          '"' :: (jsonEscapeList k.data ++
            '"' :: ':' :: '"' :: (jsonEscapeList v.data ++
              '"' :: Char.ofNat 125 :: rest)) := by
        simp [jsonStringifyPairs, jsonQuote, List.append_assoc]
      rw [hshape]
      cases fuel with
      | zero => omega
      | succ f =>
        rw [jsonParsePairs_succ, jsonParsePair_quote]
        rw [jsonParseStringBody_escape k.data (f + 1) _ (by omega)]
        simp only []
        rw [jsonParseStringBody_escape v.data (f + 1) _ (by omega)]
        simp [string_mk_data]
    | cons q ps' =>
      have hlen : (jsonStringifyPairs ((k, v) :: q :: ps')).length =
          (jsonEscapeList k.data).length + (jsonEscapeList v.data).length +
            6 + (jsonStringifyPairs (q :: ps')).length := by
        simp [jsonStringifyPairs, jsonQuote]
        omega
      rw [hlen] at hf
      have hshape : jsonStringifyPairs ((k, v) :: q :: ps') ++
            Char.ofNat 125 :: rest =
          '"' :: (jsonEscapeList k.data ++
            '"' :: ':' :: '"' :: (jsonEscapeList v.data ++
              '"' :: ',' :: (jsonStringifyPairs (q :: ps') ++
                Char.ofNat 125 :: rest))) := by
        simp [jsonStringifyPairs, jsonQuote, List.append_assoc]
      rw [hshape]
      cases fuel with
      | zero => omega
      | succ f =>
        rw [jsonParsePairs_succ, jsonParsePair_quote]
        rw [jsonParseStringBody_escape k.data (f + 1) _ (by omega)]
        simp only []
        rw [jsonParseStringBody_escape v.data (f + 1) _ (by omega)]
        simp only [string_mk_data]
        rw [ih f rest (by simp) (by omega)]
        simp

theorem jsonParse_stringify (v : RepValue) :
    jsonParse (jsonStringify v) = some v := by
  cases v with
  | rnull => decide
  | rstr s =>
    unfold jsonParse
    have hq := jsonEscapeList_length_ge s.data
    have hshape : jsonStringify (.rstr s) =
        '"' :: (jsonEscapeList s.data ++ '"' :: []) := by
      simp [jsonStringify, jsonQuote]
    rw [hshape]
    rw [jsonParseValue_quote]
    rw [jsonParseStringBody_escape s.data _ []
      (by simp only [List.length_cons, List.length_append,
        List.length_nil]; omega)]
    simp [string_mk_data]
  | rmap kvs =>
    cases kvs with
    | nil => decide
    | cons kv ps =>
      unfold jsonParse
      obtain ⟨k, v⟩ := kv
      have hshape : jsonStringify (.rmap ((k, v) :: ps)) =
          Char.ofNat 123 :: (jsonStringifyPairs ((k, v) :: ps) ++
            Char.ofNat 125 :: []) := by
        simp [jsonStringify]
      rw [hshape]
      have hhead : ∃ tail, jsonStringifyPairs ((k, v) :: ps) =
          '"' :: tail := by
        cases ps with
        | nil =>
          refine ⟨jsonEscapeList k.data ++ '"' :: ':' :: '"' ::
            (jsonEscapeList v.data ++ ['"']), ?_⟩
          simp [jsonStringifyPairs, jsonQuote, List.append_assoc]
        | cons q ps2 =>
          refine ⟨jsonEscapeList k.data ++ '"' :: ':' :: '"' ::
            (jsonEscapeList v.data ++ '"' :: ',' ::
              jsonStringifyPairs (q :: ps2)), ?_⟩
          simp [jsonStringifyPairs, jsonQuote, List.append_assoc]
      obtain ⟨tail, htail⟩ := hhead
      rw [htail]
      simp only [List.cons_append]
      rw [jsonParseValue_brace_cons, if_neg (by decide), ← List.cons_append,
        ← htail]
      rw [jsonParsePairs_stringify ((k, v) :: ps) _ [] (by simp)
        (by simp only [htail, List.length_cons, List.length_append,
          List.length_nil]; omega)]
      rfl

theorem mpReadStr_append (bs rest : List Nat) :
    mpReadStr bs.length (bs ++ rest) =
      (bufToString bs).map (fun s => (RepValue.rstr s, rest)) := by
  unfold mpReadStr
  rw [if_pos (by simp), List.take_left, List.drop_left]

theorem mpDecodeScalar_cons (b : Nat) (bs : List Nat) :
    mpDecodeScalar (b :: bs) =
      (if b = 0xc0 then some (.rnull, bs)
       else if 0xa0 ≤ b && b ≤ 0xbf then mpReadStr (b - 0xa0) bs
       else if b = 0xd9 then
         match bs with
         | n :: r => mpReadStr n r
         | [] => none
       else if b = 0xda then
         match bs with
         | n1 :: n2 :: r => mpReadStr (n1 * 256 + n2) r
         | _ => none
       else if b = 0xdb then
         match bs with
         | n1 :: n2 :: n3 :: n4 :: r =>
           mpReadStr (n1 * 16777216 + n2 * 65536 + n3 * 256 + n4) r
         | _ => none
       else none) := rfl

theorem mpDecodeScalar_str (s : String) (rest : List Nat)
    (hsz : (utf8Encode s.data).length < 4294967296) :
    mpDecodeScalar (mpEncodeStr s ++ rest) = some (.rstr s, rest) := by
  have hb := bufToString_utf8Encode s.data
  simp only [mpEncodeStr, mpStrHeader]
  by_cases h1 : (utf8Encode s.data).length < 32
  · rw [if_pos h1]
    simp only [List.cons_append, List.nil_append, List.append_assoc]
    rw [mpDecodeScalar_cons, if_neg (by omega),
      if_pos (by simp only [Bool.and_eq_true, decide_eq_true_eq]; omega)]
    rw [show 0xa0 + (utf8Encode s.data).length - 0xa0 =
      (utf8Encode s.data).length from by omega]
    rw [mpReadStr_append, hb]
    rfl
  · by_cases h2 : (utf8Encode s.data).length < 256
    · rw [if_neg h1, if_pos h2]
      simp only [List.cons_append, List.nil_append, List.append_assoc]
      rw [mpDecodeScalar_cons, if_neg (by omega),
        if_neg (by simp only [Bool.and_eq_true, decide_eq_true_eq]; omega),
        if_pos rfl]
      simp only []
      rw [mpReadStr_append, hb]
      rfl
    · by_cases h3 : (utf8Encode s.data).length < 65536
      · rw [if_neg h1, if_neg h2, if_pos h3]
        simp only [List.cons_append, List.nil_append, List.append_assoc]
        rw [mpDecodeScalar_cons, if_neg (by omega),
          if_neg (by simp only [Bool.and_eq_true, decide_eq_true_eq]; omega),
          if_neg (by omega), if_pos rfl]
        simp only []
        rw [show (utf8Encode s.data).length / 256 * 256 +
          (utf8Encode s.data).length % 256 =
          (utf8Encode s.data).length from by omega]
        rw [mpReadStr_append, hb]
        rfl
      · rw [if_neg h1, if_neg h2, if_neg h3]
        simp only [List.cons_append, List.nil_append, List.append_assoc]
        rw [mpDecodeScalar_cons, if_neg (by omega),
          if_neg (by simp only [Bool.and_eq_true, decide_eq_true_eq]; omega),
          if_neg (by omega), if_neg (by omega), if_pos rfl]
        simp only []
        rw [show (utf8Encode s.data).length / 16777216 % 256 * 16777216 +
          (utf8Encode s.data).length / 65536 % 256 * 65536 +
          (utf8Encode s.data).length / 256 % 256 * 256 +
          (utf8Encode s.data).length % 256 =
          (utf8Encode s.data).length from by omega]
        rw [mpReadStr_append, hb]
        rfl

theorem mpDecodePairs_encode :
    ∀ (kvs : List (String × String)) (rest : List Nat),
      (∀ p ∈ kvs, (utf8Encode p.1.data).length < 4294967296 ∧
        (utf8Encode p.2.data).length < 4294967296) →
      mpDecodePairs kvs.length (mpEncodePairs kvs ++ rest) =
        some (kvs, rest) := by
  intro kvs
  induction kvs with
  | nil =>
    intro rest _
    rfl
  | cons kv ps ih =>
    intro rest hsz
    obtain ⟨k, v⟩ := kv
    have hk := (hsz (k, v) (by simp)).1
    have hv := (hsz (k, v) (by simp)).2
    show mpDecodePairs (ps.length + 1)
      (mpEncodePairs ((k, v) :: ps) ++ rest) = _
    have hshape : mpEncodePairs ((k, v) :: ps) ++ rest =
        mpEncodeStr k ++ (mpEncodeStr v ++ (mpEncodePairs ps ++ rest)) := by
      simp [mpEncodePairs, List.append_assoc]
    rw [hshape]
    show (match mpDecodeScalar (mpEncodeStr k ++
        (mpEncodeStr v ++ (mpEncodePairs ps ++ rest))) with
      | some (.rstr k', bs1) =>
        match mpDecodeScalar bs1 with
        | some (.rstr v', bs2) =>
          (mpDecodePairs ps.length bs2).map
            (fun (p : List (String × String) × List Nat) =>
              ((k', v') :: p.1, p.2))
        | _ => none
      | _ => none) = _
    rw [mpDecodeScalar_str k _ hk]
    simp only []
    rw [mpDecodeScalar_str v _ hv]
    simp only []
    rw [ih rest (fun p hp => hsz p (by simp [hp]))]
    rfl

theorem mpDecode_cons (b : Nat) (bs : List Nat) :
    mpDecode (b :: bs) =
      (if 0x80 ≤ b && b ≤ 0x8f then
        (mpDecodePairs (b - 0x80) bs).map (fun p => (RepValue.rmap p.1, p.2))
      else if b = 0xde then
        match bs with
        | n1 :: n2 :: r =>
          (mpDecodePairs (n1 * 256 + n2) r).map
            (fun p => (RepValue.rmap p.1, p.2))
        | _ => none
      else if b = 0xdf then
        match bs with
        | n1 :: n2 :: n3 :: n4 :: r =>
          (mpDecodePairs (n1 * 16777216 + n2 * 65536 + n3 * 256 + n4) r).map
            (fun p => (RepValue.rmap p.1, p.2))
        | _ => none
      else mpDecodeScalar (b :: bs)) := rfl

theorem mpEncodeStr_head :
    ∀ s : String, ∃ b tail, mpEncodeStr s = b :: tail ∧
      (0xa0 ≤ b ∧ b ≤ 0xbf ∨ b = 0xd9 ∨ b = 0xda ∨ b = 0xdb) := by
  intro s
  simp only [mpEncodeStr, mpStrHeader]
  by_cases h1 : (utf8Encode s.data).length < 32
  · rw [if_pos h1]
    exact ⟨_, _, rfl, Or.inl ⟨by omega, by omega⟩⟩
  · by_cases h2 : (utf8Encode s.data).length < 256
    · rw [if_neg h1, if_pos h2]
      exact ⟨_, _, rfl, Or.inr (Or.inl rfl)⟩
    · by_cases h3 : (utf8Encode s.data).length < 65536
      · rw [if_neg h1, if_neg h2, if_pos h3]
        exact ⟨_, _, rfl, Or.inr (Or.inr (Or.inl rfl))⟩
      · rw [if_neg h1, if_neg h2, if_neg h3]
        exact ⟨_, _, rfl, Or.inr (Or.inr (Or.inr rfl))⟩

theorem mpDecode_encode (v : RepValue) (rest : List Nat)
    (hsz : mpSizedB v = true) :
    mpDecode (mpEncode v ++ rest) = some (v, rest) := by
  cases v with
  | rnull =>
    show mpDecode (0xc0 :: rest) = _
    rw [mpDecode_cons, if_neg (by decide), if_neg (by decide),
      if_neg (by decide)]
    rfl
  | rstr s =>
    have hs : (utf8Encode s.data).length < 4294967296 := by
      simpa [mpSizedB] using hsz
    obtain ⟨b, tail, hbt, hb⟩ := mpEncodeStr_head s
    show mpDecode (mpEncodeStr s ++ rest) = _
    have hcons : mpEncodeStr s ++ rest = b :: (tail ++ rest) := by
      rw [hbt]
      rfl
    rw [hcons, mpDecode_cons,
      if_neg (by simp only [Bool.and_eq_true, decide_eq_true_eq]; omega),
      if_neg (by omega), if_neg (by omega), ← hcons]
    exact mpDecodeScalar_str s rest hs
  | rmap kvs =>
    have hn : kvs.length < 4294967296 := by
      simp only [mpSizedB, Bool.and_eq_true, decide_eq_true_eq] at hsz
      exact hsz.1
    have hall : ∀ p ∈ kvs, (utf8Encode p.1.data).length < 4294967296 ∧
        (utf8Encode p.2.data).length < 4294967296 := by
      intro p hp
      simp only [mpSizedB, Bool.and_eq_true, List.all_eq_true,
        decide_eq_true_eq] at hsz
      have := hsz.2 p hp
      simpa using this
    show mpDecode (mpMapHeader kvs.length ++ mpEncodePairs kvs ++ rest) = _
    unfold mpMapHeader
    by_cases h1 : kvs.length < 16
    · rw [if_pos h1]
      simp only [List.cons_append, List.nil_append, List.append_assoc]
      rw [mpDecode_cons,
        if_pos (by simp only [Bool.and_eq_true, decide_eq_true_eq]; omega)]
      rw [show 0x80 + kvs.length - 0x80 = kvs.length from by omega]
      rw [mpDecodePairs_encode kvs rest hall]
      rfl
    · by_cases h2 : kvs.length < 65536
      · rw [if_neg h1, if_pos h2]
        simp only [List.cons_append, List.nil_append, List.append_assoc]
        rw [mpDecode_cons,
          if_neg (by simp only [Bool.and_eq_true, decide_eq_true_eq]; omega),
          if_pos rfl]
        simp only []
        rw [show kvs.length / 256 * 256 + kvs.length % 256 =
          kvs.length from by omega]
        rw [mpDecodePairs_encode kvs rest hall]
        rfl
      · rw [if_neg h1, if_neg h2]
        simp only [List.cons_append, List.nil_append, List.append_assoc]
        rw [mpDecode_cons,
          if_neg (by simp only [Bool.and_eq_true, decide_eq_true_eq]; omega),
          if_neg (by omega), if_pos rfl]
        simp only []
        rw [show kvs.length / 16777216 % 256 * 16777216 +
          kvs.length / 65536 % 256 * 65536 +
          kvs.length / 256 % 256 * 256 + kvs.length % 256 =
          kvs.length from by omega]
        rw [mpDecodePairs_encode kvs rest hall]
        rfl

theorem hexVal_hexUpperChar : ∀ n < 16, hexVal (hexUpperChar n) = some n := by
  decide

theorem hexUpperChar_ne :
    ∀ n < 16, hexUpperChar n ≠ '&' ∧ hexUpperChar n ≠ '=' := by
  decide

theorem unreservedB_ne (c : Char) (h : unreservedB c = true) :
    c ≠ '%' ∧ c ≠ '+' ∧ c ≠ '&' ∧ c ≠ '=' := by
  refine ⟨?_, ?_, ?_, ?_⟩ <;> rintro rfl <;> exact absurd h (by decide)

theorem char_ofNat_toNat_small (b : Nat) (h : b < 128) :
    (Char.ofNat b).toNat = b := by
  have hv : Nat.isValidChar b := Or.inl (by omega)
  simp [Char.ofNat, hv, Char.toNat, Char.ofNatAux, UInt32.toNat,
    BitVec.toNat_ofNatLt]

theorem utf8EncodeChar_small (b : Nat) (h : b < 128) :
    utf8EncodeChar (Char.ofNat b) = [b] := by
  simp only [utf8EncodeChar, char_ofNat_toNat_small b h]
  rw [if_pos (by omega)]

theorem percentDecodeAux_cons (fuel : Nat) (c : Char) (rest : List Char) :
    percentDecodeAux (fuel + 1) (c :: rest) =
      (if c = '%' then
        match rest with
        | h1 :: h2 :: rest2 =>
          match hexVal h1, hexVal h2 with
          | some a, some b =>
            (percentDecodeAux fuel rest2).map (fun bs => (a * 16 + b) :: bs)
          | _, _ => none
        | _ => none
      else if c = '+' then
        (percentDecodeAux fuel rest).map (fun bs => 32 :: bs)
      else
        (percentDecodeAux fuel rest).map
          (fun bs => utf8EncodeChar c ++ bs)) := rfl

theorem optionMapM_cons {α β : Type} (f : α → Option β) (a : α)
    (l : List α) :
    (a :: l).mapM f =
      (f a).bind (fun b => (l.mapM f).map (fun bs => b :: bs)) := by
  rw [List.mapM_cons]
  cases f a with
  | none => rfl
  | some b =>
    simp only [Option.some_bind]
    cases h : l.mapM f <;> simp [h, Option.bind, Function.comp]

theorem percentDecodeAux_encode :
    ∀ (bs : List Nat) (fuel : Nat), (∀ b ∈ bs, b < 256) →
      (percentEncodeBytes bs).length ≤ fuel →
      percentDecodeAux fuel (percentEncodeBytes bs) = some bs := by
  intro bs
  induction bs with
  | nil =>
    intro fuel _ _
    cases fuel <;> rfl
  | cons b bs ih =>
    intro fuel hlt hfuel
    have hb : b < 256 := hlt b (by simp)
    by_cases hres : (b < 128 && unreservedB (Char.ofNat b)) = true
    · have hres' := hres
      simp only [Bool.and_eq_true, decide_eq_true_eq] at hres'
      obtain ⟨hb128, hunres⟩ := hres'
      rw [show percentEncodeBytes (b :: bs) =
          Char.ofNat b :: percentEncodeBytes bs from by
        simp only [percentEncodeBytes]; rw [if_pos hres]; simp] at hfuel ⊢
      cases fuel with
      | zero => simp at hfuel
      | succ f =>
        have hne := unreservedB_ne (Char.ofNat b) hunres
        rw [percentDecodeAux_cons, if_neg hne.1, if_neg hne.2.1,
          ih f (fun x hx => hlt x (by simp [hx]))
            (by simp only [List.length_cons] at hfuel; omega)]
        simp only [Option.map_some']
        rw [utf8EncodeChar_small b hb128]
        rfl
    · rw [show percentEncodeBytes (b :: bs) =
          '%' :: hexUpperChar (b / 16) :: hexUpperChar (b % 16) ::
            percentEncodeBytes bs from by
        simp only [percentEncodeBytes]; rw [if_neg hres]; simp] at hfuel ⊢
      cases fuel with
      | zero => simp at hfuel
      | succ f =>
        rw [percentDecodeAux_cons, if_pos rfl]
        simp only []
        rw [hexVal_hexUpperChar (b / 16) (by omega),
          hexVal_hexUpperChar (b % 16) (by omega)]
        simp only []
        rw [ih f (fun x hx => hlt x (by simp [hx]))
          (by simp only [List.length_cons] at hfuel; omega)]
        simp only [Option.map_some']
        rw [show b / 16 * 16 + b % 16 = b from by omega]

theorem qsUnescape_escape (s : String) :
    qsUnescape (qsEscape s) = some s := by
  unfold qsUnescape qsEscape
  rw [percentDecodeAux_encode (utf8Encode s.data) _
    (utf8Encode_lt_256 s.data) (le_refl _)]
  show bufToString (utf8Encode s.data) = some s
  rw [bufToString_utf8Encode]

theorem percentEncodeBytes_ne (bs : List Nat) (hlt : ∀ b ∈ bs, b < 256) :
    ∀ c ∈ percentEncodeBytes bs, c ≠ '&' ∧ c ≠ '=' := by
  induction bs with
  | nil => intro c hc; cases hc
  | cons b bs ih =>
    intro c hc
    have hb : b < 256 := hlt b (by simp)
    simp only [percentEncodeBytes, List.mem_append] at hc
    cases hc with
    | inl h =>
      by_cases hres : (b < 128 && unreservedB (Char.ofNat b)) = true
      · rw [if_pos hres] at h
        have hres' := hres
        simp only [Bool.and_eq_true, decide_eq_true_eq] at hres'
        simp only [List.mem_singleton] at h
        subst h
        have hne := unreservedB_ne _ hres'.2
        exact ⟨hne.2.2.1, hne.2.2.2⟩
      · rw [if_neg hres] at h
        simp only [List.mem_cons, List.not_mem_nil, or_false] at h
        rcases h with rfl | rfl | rfl
        · exact ⟨by decide, by decide⟩
        · exact hexUpperChar_ne (b / 16) (by omega)
        · exact hexUpperChar_ne (b % 16) (by omega)
    | inr h => exact ih (fun x hx => hlt x (by simp [hx])) c h

theorem qsEscape_ne (s : String) :
    ∀ c ∈ qsEscape s, c ≠ '&' ∧ c ≠ '=' :=
  percentEncodeBytes_ne (utf8Encode s.data) (utf8Encode_lt_256 s.data)

theorem qsSegment_ne_amp (k v : String) :
    ∀ c ∈ qsEscape k ++ '=' :: qsEscape v, c ≠ '&' := by
  intro c hc
  simp only [List.mem_append, List.mem_cons] at hc
  rcases hc with h | rfl | h
  · exact (qsEscape_ne k c h).1
  · decide
  · exact (qsEscape_ne v c h).1

theorem splitOnChar_no_sep (sep : Char) :
    ∀ seg : List Char, (∀ c ∈ seg, c ≠ sep) →
      splitOnChar sep seg = [seg] := by
  intro seg
  induction seg with
  | nil => intro _; rfl
  | cons c rest ih =>
    intro h
    simp only [splitOnChar]
    rw [if_neg (h c (by simp)), ih (fun x hx => h x (by simp [hx]))]

theorem splitOnChar_append (sep : Char) :
    ∀ (seg rest : List Char), (∀ c ∈ seg, c ≠ sep) →
      splitOnChar sep (seg ++ sep :: rest) =
        seg :: splitOnChar sep rest := by
  intro seg
  induction seg with
  | nil =>
    intro rest _
    simp [splitOnChar]
  | cons c cs ih =>
    intro rest h
    simp only [List.cons_append, splitOnChar, List.append_eq]
    rw [if_neg (h c (by simp)), ih rest (fun x hx => h x (by simp [hx]))]

theorem splitKV_append :
    ∀ (k v : List Char), (∀ c ∈ k, c ≠ '=') →
      splitKV (k ++ '=' :: v) = (k, v) := by
  intro k
  induction k with
  | nil =>
    intro v _
    simp [splitKV]
  | cons c cs ih =>
    intro v h
    simp only [List.cons_append, splitKV, List.append_eq]
    rw [if_neg (h c (by simp)), ih v (fun x hx => h x (by simp [hx]))]

theorem qsStringifyPairs_ne_nil (kv : String × String)
    (rest : List (String × String)) :
    qsStringifyPairs (kv :: rest) ≠ [] := by
  obtain ⟨k, v⟩ := kv
  cases rest <;> simp [qsStringifyPairs]

theorem qsParse_stringify :
    ∀ kvs : List (String × String),
      qsParse (qsStringifyPairs kvs) = some kvs := by
  intro kvs
  induction kvs with
  | nil => rfl
  | cons kv rest ih =>
    obtain ⟨k, v⟩ := kv
    cases rest with
    | nil =>
      show qsParse (qsEscape k ++ '=' :: qsEscape v) = _
      unfold qsParse
      rw [if_neg (by simp),
        splitOnChar_no_sep '&' _ (qsSegment_ne_amp k v), optionMapM_cons]
      simp only []
      rw [splitKV_append (qsEscape k) (qsEscape v)
        (fun c hc => (qsEscape_ne k c hc).2)]
      simp only []
      rw [qsUnescape_escape k, qsUnescape_escape v]
      rfl
    | cons q rest2 =>
      have hshape : qsStringifyPairs ((k, v) :: q :: rest2) =
          (qsEscape k ++ '=' :: qsEscape v) ++
            '&' :: qsStringifyPairs (q :: rest2) := by
        simp [qsStringifyPairs, List.append_assoc]
      rw [hshape]
      unfold qsParse
      rw [if_neg (by simp),
        splitOnChar_append '&' _ _ (qsSegment_ne_amp k v), optionMapM_cons]
      simp only []
      rw [splitKV_append (qsEscape k) (qsEscape v)
        (fun c hc => (qsEscape_ne k c hc).2)]
      simp only []
      rw [qsUnescape_escape k, qsUnescape_escape v]
      simp only []
      unfold qsParse at ih
      rw [if_neg (qsStringifyPairs_ne_nil q rest2)] at ih
      rw [ih]
      rfl

/-- C6 (amended): for each supported content type T and every representative
value V, `deserialize(T, serialize(T, V))` equals V — except for the one
JSON value that is the string `'null'`, which the JSON deserializer maps to
null. -/
theorem claim_C6 (T : String) (v : RepValue)
    (hT : T = "application/json" ∨ T = "application/msgpack" ∨
      T = "application/x-www-form-urlencoded")
    (hrep : representableB T v = true)
    (hnull : ¬(T = "application/json" ∧ v = .rstr "null")) :
    (serialize T v).bind (deserialize T) = some v := by
  rcases hT with rfl | rfl | rfl
  · have hv : v ≠ .rstr "null" := fun h => hnull ⟨rfl, h⟩
    show deserialize "application/json"
      (bufFromString (String.mk (jsonStringify v))) = some v
    unfold deserialize
    rw [if_pos rfl, bufToString_bufFromString]
    simp only []
    rw [jsonParse_stringify]
    simp only []
    rw [if_neg hv]
  · have hsz : mpSizedB v = true := by
      unfold representableB at hrep
      rw [if_neg (by decide), if_pos rfl] at hrep
      simp only [Bool.and_eq_true] at hrep
      exact hrep.1
    show deserialize "application/msgpack" (mpEncode v) = some v
    unfold deserialize
    rw [if_neg (by decide), if_pos rfl,
      show mpEncode v = mpEncode v ++ [] from by simp,
      mpDecode_encode v [] hsz]
  · cases v with
    | rnull => simp [representableB] at hrep
    | rstr s => simp [representableB] at hrep
    | rmap kvs =>
      show deserialize "application/x-www-form-urlencoded"
        (utf8Encode (qsStringifyPairs kvs)) = some (.rmap kvs)
      unfold deserialize
      rw [if_neg (by decide), if_neg (by decide), if_pos rfl,
        bufToString_utf8Encode]
      simp only []
      rw [qsParse_stringify]
      rfl

/-- C6 counterexample: the round-trip fails as stated for the JSON string
value `'null'` — serializing it and deserializing returns null, not the
original string. -/
theorem claim_C6_counterexample :
    (serialize "application/json" (RepValue.rstr "null")).bind
      (deserialize "application/json") ≠
      some (RepValue.rstr "null") := by
  decide

/-- C6 witness: the msgpack round-trip on the flat map
`\x7b foo: 'bar' \x7d` returns the original value. -/
theorem claim_C6_witness :
    representableB "application/msgpack" (.rmap [("foo", "bar")]) = true ∧
    ¬("application/msgpack" = "application/json" ∧
      (RepValue.rmap [("foo", "bar")]) = .rstr "null") ∧
    (serialize "application/msgpack" (.rmap [("foo", "bar")])).bind
      (deserialize "application/msgpack") =
      some (.rmap [("foo", "bar")]) :=
  ⟨by decide, by decide,
   claim_C6 "application/msgpack" (.rmap [("foo", "bar")])
     (Or.inr (Or.inl rfl)) (by decide) (by decide)⟩

/-- C10: the JSON deserializer maps a parsed value equal to the string
`'null'` to null, so for the string value `'null'` the round-trip returns
null rather than the original string — an exception to the serializer
round-trip at the public interface. -/
theorem claim_C10 :
    (serialize "application/json" (RepValue.rstr "null")).bind
      (deserialize "application/json") = some RepValue.rnull ∧
    some RepValue.rnull ≠ some (RepValue.rstr "null") := by
  exact ⟨by decide, by decide⟩

end SmartModules
